import Mathlib

/-!
# GlitchSynth audio engine (Sound.cpp): embedding and verified properties

The definitions below follow `Sound.cpp` function by function.

Conventions of the embedding:
* `float` values are rationals (`ℚ`): arithmetic is exact, there is no rounding,
  no infinity and no NaN.  A division whose divisor is zero yields `0` in `ℚ`
  where the machine yields `inf`/`NaN`; statements about amplitudes therefore
  carry the non-zero duration they need.  The panning helper, which calls the
  cosine and the sine, is written over an arbitrary ordered field with the two
  functions as parameters, and its properties are stated over `ℝ`.
* `uint64_t` values are natural numbers, every arithmetic operation on them is
  reduced modulo `2^64` explicitly (`u64_add`, `u64_sub`).
* `int(...)` conversions of 64-bit values wrap to 32-bit two's complement
  (`to_int`).
* operations the machine leaves undefined (integer modulo by zero, a write
  past the end of a vector, a float to integer conversion that is out of
  range) return `none`.
* `std::mt19937` is a stream of outputs together with a read position;
  `std::sinf` is a parameter `sinf : ℚ → ℚ`.
* the declarations of `Sound.hpp` are not part of the sources at hand; the
  record types list the members that `Sound.cpp` reads and writes.
-/

namespace Sound

/-! ## Constants -/

/-- Sampling rate, `AUDIO_RATE`. -/
def AUDIO_RATE : Nat := 48000

/-- Number of frames mixed per callback, `MIX_SAMPLES`. -/
def MIX_SAMPLES : Nat := 1024

/-- Modulus of `uint64_t` arithmetic. -/
def U64 : Nat := 2 ^ 64

/-- Wrapping `uint64_t` addition. -/
def u64_add (a b : Nat) : Nat := (a + b) % U64

/-- Wrapping `uint64_t` subtraction. -/
def u64_sub (a b : Nat) : Nat := (a % U64 + (U64 - b % U64)) % U64

/-- Conversion `int(x)` of an unsigned 64-bit value: wraps to 32-bit two's complement. -/
def to_int (x : Nat) : Int :=
  if x % 2 ^ 32 < 2 ^ 31 then ((x % 2 ^ 32 : Nat) : Int) else ((x % 2 ^ 32 : Nat) : Int) - 2 ^ 32

/-- Conversion `uint64_t(x)` of a float: truncation toward zero, undefined when the
truncated value does not fit. -/
def f32_to_u64 (x : ℚ) : Option Nat :=
  if x ≤ -1 ∨ (U64 : ℚ) ≤ x then none else some (Int.toNat ⌊x⌋)

/-! ## Random number generator -/

/-- State of a `std::mt19937`: the stream of values it returns and the number of
values already drawn. -/
structure Mt19937 where
  out : Nat → Nat
  pos : Nat

/-- Value of `mt.max()`. -/
def mt_max : Nat := 4294967295

/-- One call `mt()`: the 32-bit value drawn and the advanced generator. -/
def Mt19937.draw (m : Mt19937) : Nat × Mt19937 :=
  (m.out m.pos % 2 ^ 32, { m with pos := m.pos + 1 })

/-- The unit draw `mt()/float(mt.max())`. -/
def unit_draw (mt : Mt19937) : ℚ × Mt19937 :=
  ((mt.draw.1 : ℚ) / (mt_max : ℚ), mt.draw.2)

/-! ## GlitchSynth -/

/-- Waveform selector `GlitchSynth::osc`. -/
inductive Oscillator where
  | OSC_SQUARE
  | OSC_SAW
  | OSC_SINE
  | OSC_NOISE
  deriving DecidableEq, Repr

/-- Envelope phase `GlitchSynth::adsr_state`. -/
inductive AdsrState where
  | ADSR_ATTACK
  | ADSR_DECAY
  | ADSR_SUSTAIN
  | ADSR_RELEASE
  | ADSR_END
  deriving DecidableEq, Repr

open Oscillator AdsrState

/-- The members of `Sound::GlitchSynth` used by `Sound.cpp`.  Thresholds are
`uint64_t` (see `set_attack`), as are `cycle_length` (assigned from a
`uint64_t` conversion), `current_sample_number` and `release_start`. -/
structure GlitchSynth where
  osc : Oscillator
  volume : ℚ
  attack_amplitude : ℚ
  attack_threshold : Nat
  decay_amplitude : ℚ
  decay_threshold : Nat
  sustain_amplitude : ℚ
  release_amplitude : ℚ
  release_threshold : Nat
  cycle_length : Nat
  current_sample_number : Nat
  release_start : Nat
  adsr_state : AdsrState
  do_release : Bool
  is_on : Bool

/-- `GlitchSynth::set_attack`. -/
def GlitchSynth.set_attack (amp : ℚ) (at_ : Nat) (g : GlitchSynth) : GlitchSynth :=
  { g with attack_amplitude := amp, attack_threshold := at_ }

/-- `GlitchSynth::set_decay`. -/
def GlitchSynth.set_decay (amp : ℚ) (at_ : Nat) (g : GlitchSynth) : GlitchSynth :=
  { g with decay_amplitude := amp, decay_threshold := at_ }

/-- `GlitchSynth::set_sustain`. -/
def GlitchSynth.set_sustain (amp : ℚ) (g : GlitchSynth) : GlitchSynth :=
  { g with sustain_amplitude := amp }

/-- `GlitchSynth::set_release`. -/
def GlitchSynth.set_release (amp : ℚ) (at_ : Nat) (g : GlitchSynth) : GlitchSynth :=
  { g with release_amplitude := amp, release_threshold := at_ }

/-- `GlitchSynth::play`: `cycle_length = uint64_t(AUDIO_RATE/frequency)`, then the
phase and the envelope are reset.  A zero frequency divides by zero (the float
quotient is infinite and its conversion undefined). -/
def GlitchSynth.play (frequency : ℚ) (g : GlitchSynth) : Option GlitchSynth :=
  if frequency = 0 then none
  else
    match f32_to_u64 ((AUDIO_RATE : ℚ) / frequency) with
    | none => none
    | some c =>
      some { g with
        cycle_length := c
        current_sample_number := 0
        release_start := 0
        adsr_state := ADSR_ATTACK
        do_release := false }

/-- The `OSC_SQUARE` expression
`float((cycle_position <= half_cycle) - (cycle_position > half_cycle))`. -/
def square_wave (cycle_position half_cycle : Int) : ℚ :=
  (((if cycle_position ≤ half_cycle then 1 else 0) -
    (if cycle_position > half_cycle then 1 else 0) : Int) : ℚ)

/-- The `switch (osc)` of `generate_samples`: the raw waveform value `s` and the
generator after the draw that `OSC_NOISE` makes. -/
def oscillator (sinf : ℚ → ℚ) (g : GlitchSynth) (cycle_position half_cycle : Int)
    (mt : Mt19937) : ℚ × Mt19937 :=
  match g.osc with
  | OSC_SQUARE => (square_wave cycle_position half_cycle, mt)
  | OSC_SAW => ((2 * (cycle_position : ℚ) / (g.cycle_length : ℚ)) - 1, mt)
  | OSC_SINE =>
    (2 * sinf ((31415926 / 10000000 : ℚ) * ((cycle_position : ℚ) / (g.cycle_length : ℚ))) - 1, mt)
  | OSC_NOISE =>
    let d := unit_draw mt
    (2 * d.1 - 1, d.2)

/-- The `switch (adsr_state)` of `generate_samples`: the envelope amplitude `amp`
of the current sample and the voice after the state update. -/
def adsr_envelope (ad_threshold : Nat) (g : GlitchSynth) : ℚ × GlitchSynth :=
  match g.adsr_state with
  | ADSR_ATTACK =>
    let amp := g.attack_amplitude * ((g.current_sample_number : ℚ) / (g.attack_threshold : ℚ))
    if u64_add g.current_sample_number 1 > g.attack_threshold then
      (amp, { g with adsr_state := ADSR_DECAY })
    else if g.do_release then
      (amp, { g with
        adsr_state := ADSR_RELEASE
        release_start := g.current_sample_number
        do_release := false })
    else (amp, g)
  | ADSR_DECAY =>
    let t : ℚ := (u64_sub g.current_sample_number g.attack_threshold : ℚ) / (g.decay_threshold : ℚ)
    let amp := g.attack_amplitude * (1 - t) + g.decay_amplitude * t
    if u64_add g.current_sample_number 1 > ad_threshold then
      (amp, { g with adsr_state := ADSR_SUSTAIN })
    else if g.do_release then
      (amp, { g with
        adsr_state := ADSR_RELEASE
        release_start := g.current_sample_number
        do_release := false })
    else (amp, g)
  | ADSR_SUSTAIN =>
    let g1 :=
      if g.do_release then
        { g with
          adsr_state := ADSR_RELEASE
          release_start := g.current_sample_number
          do_release := false }
      else g
    (g.sustain_amplitude, g1)
  | ADSR_RELEASE =>
    let t : ℚ := (u64_sub g.current_sample_number g.release_start : ℚ) / (g.release_threshold : ℚ)
    let amp := g.sustain_amplitude * (1 - t) + g.release_amplitude * t
    if u64_add g.current_sample_number 1 > u64_add g.release_start g.release_threshold then
      (amp, { g with adsr_state := ADSR_END })
    else (amp, g)
  | ADSR_END => (g.release_amplitude, g)

/-- What one iteration of the loop of `generate_samples` computes. -/
structure SampleOut where
  s : ℚ
  amp : ℚ
  synth : GlitchSynth
  mt : Mt19937

/-- The amount `s * volume * amp` added to the buffer entry. -/
def SampleOut.contribution (o : SampleOut) (g : GlitchSynth) : ℚ :=
  o.s * g.volume * o.amp

/-- One iteration of the loop of `generate_samples`, the buffer write left out:
phase, waveform, envelope, and `current_sample_number++`.  The phase is
`current_sample_number % cycle_length`, undefined for `cycle_length = 0`. -/
def sample_step (sinf : ℚ → ℚ) (half_cycle : Int) (ad_threshold : Nat) (g : GlitchSynth)
    (mt : Mt19937) : Option SampleOut :=
  if g.cycle_length = 0 then none
  else
    let cycle_position := to_int (g.current_sample_number % g.cycle_length)
    let sm := oscillator sinf g cycle_position half_cycle mt
    let ag := adsr_envelope ad_threshold g
    some
      { s := sm.1
        amp := ag.1
        synth := { ag.2 with current_sample_number := u64_add ag.2.current_sample_number 1 }
        mt := sm.2 }

/-- The loop `for (i = 0; i < n; i++)` of `generate_samples`, entered at index `i`
with `k` iterations left; `buffer[i] += s * volume * amp` is undefined past the
end of the buffer. -/
def generate_loop (sinf : ℚ → ℚ) (half_cycle : Int) (ad_threshold : Nat) :
    Nat → Nat → List ℚ → GlitchSynth → Mt19937 → Option (List ℚ × GlitchSynth × Mt19937)
  | _, 0, buffer, g, mt => some (buffer, g, mt)
  | i, k + 1, buffer, g, mt =>
    match sample_step sinf half_cycle ad_threshold g mt with
    | none => none
    | some o =>
      if i < buffer.length then
        generate_loop sinf half_cycle ad_threshold (i + 1) k
          (buffer.set i (buffer.getD i 0 + o.contribution g)) o.synth o.mt
      else none

/-- `GlitchSynth::generate_samples(n, buffer)` for `n ≥ 0` (a negative `n` runs no
iteration, like `n = 0`): the voice adds `n` samples to the buffer.  The
generator is the function's `static std::mt19937 mt`. -/
def generate_samples (sinf : ℚ → ℚ) (n : Nat) (buffer : List ℚ) (g : GlitchSynth)
    (mt : Mt19937) : Option (List ℚ × GlitchSynth × Mt19937) :=
  let half_cycle := to_int (g.cycle_length / 2)
  let ad_threshold := u64_add g.attack_threshold g.decay_threshold
  generate_loop sinf half_cycle ad_threshold 0 n buffer g mt

/-! ## Ramps and playing samples -/

/-- `Sound::Ramp< T >`: a value, its target and the time left to reach it. -/
structure Ramp (α : Type) where
  value : α
  target : α
  ramp : ℚ

/-- `glm::vec3`. -/
structure Vec3 where
  x : ℚ
  y : ℚ
  z : ℚ

/-- The members of `Sound::PlayingSample` written by `Sound.cpp`.  (A sample in 3D
mode carries a NaN `pan.value`, which has no counterpart in `ℚ`; no operation
below reads it.) -/
structure PlayingSample where
  volume : Ramp ℚ
  pan : Ramp ℚ
  position : Ramp Vec3
  half_volume_radius : Ramp ℚ
  stopping : Bool
  stopped : Bool

/-- `std::min(a, b)` on floats: `b` when `b < a`, otherwise `a`. -/
def std_min (a b : ℚ) : ℚ := if b < a then b else a

/-- `PlayingSample::stop(ramp)` (between `Sound::lock()` and `Sound::unlock()`). -/
def PlayingSample.stop (ramp : ℚ) (p : PlayingSample) : PlayingSample :=
  if !(p.stopping || p.stopped) then
    { p with
      stopping := true
      volume := { p.volume with target := 0, ramp := ramp } }
  else
    { p with volume := { p.volume with ramp := std_min p.volume.ramp ramp } }

/-- `Sound::Listener`. -/
structure Listener where
  position : Ramp Vec3
  right : Ramp Vec3

/-- `RAMP_STEP = float(MIX_SAMPLES) / float(AUDIO_RATE)`. -/
def RAMP_STEP : ℚ := (MIX_SAMPLES : ℚ) / (AUDIO_RATE : ℚ)

/-- `step_value_ramp`. -/
def step_value_ramp (r : Ramp ℚ) : Ramp ℚ :=
  if r.ramp < RAMP_STEP then
    { r with value := r.target, ramp := 0 }
  else
    { r with
      value := r.value + (RAMP_STEP / r.ramp) * (r.target - r.value)
      ramp := r.ramp - RAMP_STEP }

/-! ## The mixing callback -/

/-- One stereo output frame, `struct LR`. -/
structure LR where
  l : ℚ
  r : ℚ
  deriving DecidableEq

/-- The file-local and public data of `Sound.cpp` that outlive a callback: the
voices, the two function-local generators, the crackle scheduler, the master
volume, the listener and the playing samples.  (`mix_buffer` is cleared at the
start of every callback and is a local of the model.) -/
structure AudioState where
  synths : List GlitchSynth
  generate_mt : Mt19937
  crackle_mt : Mt19937
  next_crackle : Nat
  crackle_duration : Nat
  global_sample : Nat
  crackle_amount : ℚ
  volume : Ramp ℚ
  listener : Listener
  playing_samples : List PlayingSample

/-- The loop over `synths` in `mix_audio`: every voice with `is_on` adds
`MIX_SAMPLES` samples to `mix_buffer` and is counted in `on_counter`. -/
def run_synths (sinf : ℚ → ℚ) :
    List GlitchSynth → List ℚ → Mt19937 → Nat → Option (List GlitchSynth × List ℚ × Mt19937 × Nat)
  | [], mix_buffer, mt, on_counter => some ([], mix_buffer, mt, on_counter)
  | g :: gs, mix_buffer, mt, on_counter =>
    if g.is_on then
      match generate_samples sinf MIX_SAMPLES mix_buffer g mt with
      | none => none
      | some (mix_buffer1, g1, mt1) =>
        match run_synths sinf gs mix_buffer1 mt1 (on_counter + 1) with
        | none => none
        | some (gs1, mix_buffer2, mt2, on_counter2) => some (g1 :: gs1, mix_buffer2, mt2, on_counter2)
    else
      match run_synths sinf gs mix_buffer mt on_counter with
      | none => none
      | some (gs1, mix_buffer2, mt2, on_counter2) => some (g :: gs1, mix_buffer2, mt2, on_counter2)

/-- The assignment `buffer[i].l = v`. -/
def set_l (i : Nat) (v : ℚ) (buffer : List LR) : List LR :=
  buffer.set i { buffer.getD i ⟨0, 0⟩ with l := v }

/-- The assignment `buffer[i].r = v`. -/
def set_r (i : Nat) (v : ℚ) (buffer : List LR) : List LR :=
  buffer.set i { buffer.getD i ⟨0, 0⟩ with r := v }

/-- The loop of the `on_counter == 0` branch: every frame is set to silence. -/
def silence (buffer : List LR) : List LR :=
  (List.range MIX_SAMPLES).foldl (fun b s => set_r s 0 (set_l s 0 b)) buffer

/-- The ten assignments to the edge frames, in source order. -/
def write_edges (mix_buffer : List ℚ) (on_counter : Nat) (buffer : List LR) : List LR :=
  let v := fun i : Nat => mix_buffer.getD i 0 / (on_counter : ℚ)
  let b1 := set_l 0 (v 0) buffer
  let b2 := set_l 1 (v 1) b1
  let b3 := set_l (MIX_SAMPLES - 1) (v (MIX_SAMPLES - 1)) b2
  let b4 := set_l (MIX_SAMPLES - 2) (v (MIX_SAMPLES - 2)) b3
  let b5 := set_l (MIX_SAMPLES - 3) (v (MIX_SAMPLES - 3)) b4
  let b6 := set_r 0 (v 0) b5
  let b7 := set_r 1 (v 1) b6
  let b8 := set_r (MIX_SAMPLES - 1) (v (MIX_SAMPLES - 1)) b7
  let b9 := set_r (MIX_SAMPLES - 2) (v (MIX_SAMPLES - 2)) b8
  set_r (MIX_SAMPLES - 3) (v (MIX_SAMPLES - 3)) b9

/-- The loop `for (i = 0; i < 5; i++) running_buffer += mix_buffer[i] / on_counter`. -/
def initial_running_sum (mix_buffer : List ℚ) (on_counter : Nat) : ℚ :=
  (List.range 5).foldl (fun acc i => acc + mix_buffer.getD i 0 / (on_counter : ℚ)) 0

/-- The variables the filter loop of `mix_audio` carries from one frame to the next. -/
structure FilterState where
  buffer : List LR
  running_buffer : ℚ
  global_sample : Nat
  next_crackle : Nat
  crackle_duration : Nat
  crackle_amount : ℚ
  mt : Mt19937

/-- The truncation `uint64_t(x)` of a float known to lie in `[0, 2^64)` (the
arguments here are unit draws scaled by 2000 and by 50000). -/
def trunc_u64 (x : ℚ) : Nat := Int.toNat ⌊x⌋

/-- The body of the filter loop `for (s = 2; s < MIX_SAMPLES-3; ++s)`: crackle
scheduling, the output frame `s`, and the update of the running sum. -/
def filter_step (mix_buffer : List ℚ) (on_counter : Nat) (st : FilterState) (s : Nat) :
    FilterState :=
  let global_sample := u64_add st.global_sample 1
  let st1 : FilterState :=
    if global_sample ≥ st.next_crackle then
      let d1 := unit_draw st.mt
      let d2 := unit_draw d1.2
      let d3 := unit_draw d2.2
      { st with
        global_sample := global_sample
        crackle_duration := u64_add 2000 (trunc_u64 (d1.1 * 2000))
        next_crackle := u64_add (u64_add global_sample 5000) (trunc_u64 (d2.1 * 50000))
        crackle_amount := (4 / 5 : ℚ) + (1 / 5 : ℚ) * d3.1
        mt := d3.2 }
    else { st with global_sample := global_sample }
  let cf : ℚ × FilterState :=
    if st1.crackle_duration = 0 then (1, st1)
    else
      let d := unit_draw st1.mt
      ((1 - st1.crackle_amount) * d.1 + st1.crackle_amount,
        { st1 with crackle_duration := st1.crackle_duration - 1, mt := d.2 })
  let mix := cf.1 * st.running_buffer / 5
  { cf.2 with
    buffer := set_r s mix (set_l s mix cf.2.buffer)
    running_buffer :=
      st.running_buffer - (mix_buffer.getD (s - 2) 0 / (on_counter : ℚ))
        + (mix_buffer.getD (s + 3) 0 / (on_counter : ℚ)) }

/-- The filter loop over `s = 2, …, MIX_SAMPLES - 4`. -/
def filter_loop (mix_buffer : List ℚ) (on_counter : Nat) (st : FilterState) : FilterState :=
  (List.range' 2 (MIX_SAMPLES - 5)).foldl (filter_step mix_buffer on_counter) st

/-- The callback `mix_audio(void *, Uint8 *buffer_, int len)`: `buffer` is the block
of frames handed in by the host (the assertion on `len` requires `MIX_SAMPLES`
of them); the result is the block after the callback and the state left behind.
`mix_buffer` is the `MIX_SAMPLES` slots reserved in `init`, all set to `0` by the
first loop; `on_counter` counts at most `NUM_SYNTHS` voices and is a natural number. -/
def mix_audio (sinf : ℚ → ℚ) (buffer : List LR) (st : AudioState) :
    Option (List LR × AudioState) :=
  if buffer.length ≠ MIX_SAMPLES then none
  else
    match run_synths sinf st.synths (List.replicate MIX_SAMPLES 0) st.generate_mt 0 with
    | none => none
    | some (synths1, mix_buffer, mt1, on_counter) =>
      if on_counter = 0 then
        some (silence buffer, { st with synths := synths1, generate_mt := mt1 })
      else
        let fs := filter_loop mix_buffer on_counter
          { buffer := write_edges mix_buffer on_counter buffer
            running_buffer := initial_running_sum mix_buffer on_counter
            global_sample := st.global_sample
            next_crackle := st.next_crackle
            crackle_duration := st.crackle_duration
            crackle_amount := st.crackle_amount
            mt := st.crackle_mt }
        some (fs.buffer,
          { st with
            synths := synths1
            generate_mt := mt1
            crackle_mt := fs.mt
            global_sample := fs.global_sample
            next_crackle := fs.next_crackle
            crackle_duration := fs.crackle_duration
            crackle_amount := fs.crackle_amount })

/-! ## Derived notions used in the statements -/

/-- The loop body iterated `n` times without a buffer: the voice and the generator
after `n` samples. -/
def run_loop (sinf : ℚ → ℚ) (half_cycle : Int) (ad_threshold : Nat) :
    Nat → GlitchSynth → Mt19937 → Option (GlitchSynth × Mt19937)
  | 0, g, mt => some (g, mt)
  | n + 1, g, mt =>
    match sample_step sinf half_cycle ad_threshold g mt with
    | none => none
    | some o => run_loop sinf half_cycle ad_threshold n o.synth o.mt

/-- One sample generated by `generate_samples` from the voice `g`: the loop body with
`half_cycle` and `ad_threshold` as the function computes them on entry. -/
def voice_step (sinf : ℚ → ℚ) (g : GlitchSynth) (mt : Mt19937) : Option SampleOut :=
  sample_step sinf (to_int (g.cycle_length / 2))
    (u64_add g.attack_threshold g.decay_threshold) g mt

/-- The voice and the generator after `generate_samples` has produced `n` samples. -/
def run_samples (sinf : ℚ → ℚ) (n : Nat) (g : GlitchSynth) (mt : Mt19937) :
    Option (GlitchSynth × Mt19937) :=
  run_loop sinf (to_int (g.cycle_length / 2))
    (u64_add g.attack_threshold g.decay_threshold) n g mt

/-- The sample of index `i` (counted from `0`) that `generate_samples` produces from
the voice `g`: its waveform value, its envelope amplitude and the voice after it. -/
def nth_sample (sinf : ℚ → ℚ) (g : GlitchSynth) (mt : Mt19937) (i : Nat) : Option SampleOut :=
  match run_samples sinf i g mt with
  | none => none
  | some r =>
    sample_step sinf (to_int (g.cycle_length / 2))
      (u64_add g.attack_threshold g.decay_threshold) r.1 r.2

/-- The moves of `adsr_state` along ATTACK, DECAY, SUSTAIN, RELEASE, END that one
sample may make (staying included). -/
def adsr_forward : AdsrState → AdsrState → Bool
  | ADSR_ATTACK, ADSR_ATTACK => true
  | ADSR_ATTACK, ADSR_DECAY => true
  | ADSR_ATTACK, ADSR_RELEASE => true
  | ADSR_DECAY, ADSR_DECAY => true
  | ADSR_DECAY, ADSR_SUSTAIN => true
  | ADSR_DECAY, ADSR_RELEASE => true
  | ADSR_SUSTAIN, ADSR_SUSTAIN => true
  | ADSR_SUSTAIN, ADSR_RELEASE => true
  | ADSR_RELEASE, ADSR_RELEASE => true
  | ADSR_RELEASE, ADSR_END => true
  | ADSR_END, ADSR_END => true
  | _, _ => false

/-! ## Concrete voices -/

/-- A generator returning zeros. -/
def mt_zero : Mt19937 := { out := fun _ => 0, pos := 0 }

/-- A stand-in for `std::sinf` in evaluations of voices that are not `OSC_SINE`. -/
def sinf_zero : ℚ → ℚ := fun _ => 0

/-- The `KICK_SYNTH` configuration of `GlitchMode::GlitchMode`, before any `play`. -/
def kick_synth : GlitchSynth :=
  { osc := OSC_SQUARE
    volume := 1
    attack_amplitude := 1
    attack_threshold := 500
    decay_amplitude := 4 / 5
    decay_threshold := 500
    sustain_amplitude := 0
    release_amplitude := 0
    release_threshold := 1
    cycle_length := 0
    current_sample_number := 0
    release_start := 0
    adsr_state := ADSR_ATTACK
    do_release := false
    is_on := true }

/-- The `PLAYER_LEAD_SYNTH` configuration of `GlitchMode::GlitchMode`, before any
`play`. -/
def lead_synth : GlitchSynth :=
  { kick_synth with
    osc := OSC_SINE
    volume := 1 / 2
    decay_amplitude := 7 / 10
    sustain_amplitude := 7 / 10
    release_threshold := 10000 }

/-- The lead voice playing 100 Hz in mid-attack (sample 250 of 500), release
requested. -/
def lead_mid_attack : GlitchSynth :=
  { lead_synth with cycle_length := 480, current_sample_number := 250, do_release := true }

/-- The kick voice playing 100 Hz at the last sample of its attack, release requested:
`current_sample_number = attack_threshold = 500`. -/
def kick_attack_end : GlitchSynth :=
  { kick_synth with cycle_length := 480, current_sample_number := 500, do_release := true }

/-- The kick voice playing 100 Hz in mid-attack, release requested. -/
def kick_mid_attack : GlitchSynth :=
  { kick_synth with cycle_length := 480, current_sample_number := 250, do_release := true }

/-- The kick voice playing 100 Hz after its release has run out. -/
def kick_ended : GlitchSynth :=
  { kick_synth with cycle_length := 480, current_sample_number := 2000, adsr_state := ADSR_END }

/-- A square voice holding the constant amplitude `1`: in SUSTAIN with
`sustain_amplitude = 1`, volume `1`, and a cycle of 4096 samples. -/
def unit_voice : GlitchSynth :=
  { kick_synth with
    sustain_amplitude := 1
    cycle_length := 4096
    current_sample_number := 1000
    adsr_state := ADSR_SUSTAIN }

/-- A silent voice that is switched off. -/
def kick_off : GlitchSynth := { kick_synth with is_on := false }

/-- A ramp at rest on the value `v`. -/
def ramp_at {α : Type} (v : α) : Ramp α := { value := v, target := v, ramp := 0 }

/-- An audio state with the given voices, fresh generators and an idle crackle scheduler. -/
def audio_state (synths : List GlitchSynth) : AudioState :=
  { synths := synths
    generate_mt := mt_zero
    crackle_mt := mt_zero
    next_crackle := 0
    crackle_duration := 0
    global_sample := 0
    crackle_amount := 0
    volume := ramp_at 1
    listener := { position := ramp_at ⟨0, 0, 0⟩, right := ramp_at ⟨1, 0, 0⟩ }
    playing_samples := [] }

/-- A playing sample that is fading out: `stop` was called with a ramp of half a second. -/
def fading_sample : PlayingSample :=
  { volume := { value := 1, target := 0, ramp := 1 / 2 }
    pan := ramp_at 0
    position := ramp_at ⟨0, 0, 0⟩
    half_volume_radius := ramp_at 1
    stopping := true
    stopped := false }

/-! ## Panning, ramp invariant and further test data -/

/-- The helper `compute_pan_weights(pan, &left, &right)`: the pair `(left, right)`.
The field of numbers and the functions `std::cos`, `std::sin` are parameters, so that
the function runs on `ℚ` and can be read over the reals with the real cosine and sine.
`std::min(1.0f, pan)` is `pan` when `pan < 1` and `1` otherwise; `std::max(-1.0f, m)`
is `m` when `-1 < m` and `-1` otherwise. -/
def compute_pan_weights {K : Type} [LinearOrderedField K] (cos sin : K → K) (pan : K) : K × K :=
  let m : K := if pan < 1 then pan else 1
  let pan1 : K := if -1 < m then m else -1
  let ang : K := (1 / 2) * (31415926 / 10000000) * ((1 / 2) * (pan1 + 1))
  (cos ang, sin ang)

/-- The invariant of a scalar ramp named in the data model: the time left is not
negative, and a ramp with no time left rests on its target. -/
def ramp_invariant (r : Ramp ℚ) : Prop :=
  0 ≤ r.ramp ∧ (r.ramp = 0 → r.value = r.target)

instance (r : Ramp ℚ) : Decidable (ramp_invariant r) := by
  unfold ramp_invariant
  infer_instance

/-- A ramp from `v0` to `target` over the duration `T`, as `Ramp::set` leaves it. -/
def ramp_from (v0 target T : ℚ) : Ramp ℚ := { value := v0, target := target, ramp := T }

/-- A sample playing at full volume that has not been stopped. -/
def playing_sample : PlayingSample :=
  { volume := ramp_at 1
    pan := ramp_at 0
    position := ramp_at ⟨0, 0, 0⟩
    half_volume_radius := ramp_at 1
    stopping := false
    stopped := false }

/-- An audio state with one silent voice, the master volume fading from `1` to `0` over
one second, as after `Sound::set_volume(0.0f, 1.0f)`, and one playing sample that has
just been stopped with `stop(1.0f)`. -/
def volume_fading : AudioState :=
  { audio_state [kick_off] with
    volume := ramp_from 1 0 1
    playing_samples := [playing_sample.stop 1] }

/-! ## The low-pass filter: the loop state and the filter recomputed from scratch -/

/-- The state with which `mix_audio` enters its filter loop: the block after the edge
assignments, the running sum of the first five divided samples, and the crackle
scheduler as the previous callback left it. -/
def filter_init (mix_buffer : List ℚ) (on_counter : Nat) (buffer : List LR) (st : AudioState) :
    FilterState :=
  { buffer := write_edges mix_buffer on_counter buffer
    running_buffer := initial_running_sum mix_buffer on_counter
    global_sample := st.global_sample
    next_crackle := st.next_crackle
    crackle_duration := st.crackle_duration
    crackle_amount := st.crackle_amount
    mt := st.crackle_mt }

/-- The state of the filter loop at the moment it reaches frame `s`, that is after the
iterations `2, …, s - 1`. -/
def filter_state_at (mix_buffer : List ℚ) (on_counter : Nat) (fs : FilterState) (s : Nat) :
    FilterState :=
  (List.range' 2 (s - 2)).foldl (filter_step mix_buffer on_counter) fs

/-- The value of `crackle_factor` in the iteration of the filter loop that starts in the
state `st` (the scheduler part of `filter_step`, read off for the statements). -/
def crackle_gain (st : FilterState) : ℚ :=
  let global_sample := u64_add st.global_sample 1
  let d1 := unit_draw st.mt
  let d2 := unit_draw d1.2
  let d3 := unit_draw d2.2
  let trig : Bool := decide (global_sample ≥ st.next_crackle)
  let duration := if trig then u64_add 2000 (trunc_u64 (d1.1 * 2000)) else st.crackle_duration
  let amount := if trig then (4 / 5 : ℚ) + (1 / 5 : ℚ) * d3.1 else st.crackle_amount
  let mt := if trig then d3.2 else st.mt
  if duration = 0 then 1 else (1 - amount) * (unit_draw mt).1 + amount

/-- The sum of the five divided samples around index `s`, computed from scratch:
`sum over j in [s-2, s+2] of mix_buffer[j] / N`. -/
def window_sum (mix_buffer : List ℚ) (on_counter : Nat) (s : Nat) : ℚ :=
  ((List.range' (s - 2) 5).map (fun j => mix_buffer.getD j 0 / (on_counter : ℚ))).sum

/-- The box filter of width 5 as the specification words it,
`avg(sample[i-2..i+2])` of the samples divided by the active-voice count. -/
def box_filter (mix_buffer : List ℚ) (on_counter : Nat) (s : Nat) : ℚ :=
  window_sum mix_buffer on_counter s / 5

/-! ## Release requests between samples and the range of the envelope phase -/

/-- What the control thread does to a voice when a key is released or a loop issues a
note-off (`synth.do_release = true` in `GlitchMode`), or nothing when `r` is `false`. -/
def request_release (r : Bool) (g : GlitchSynth) : GlitchSynth :=
  if r then { g with do_release := true } else g

/-- One sample is generated for every entry of the schedule; an entry `true` means that
a release request arrived just before that sample. -/
def run_schedule (sinf : ℚ → ℚ) :
    List Bool → GlitchSynth → Mt19937 → Option (GlitchSynth × Mt19937)
  | [], g, mt => some (g, mt)
  | r :: rs, g, mt =>
    match voice_step sinf (request_release r g) mt with
    | none => none
    | some o => run_schedule sinf rs o.synth o.mt

/-- The sample counter lies within the window of the current envelope phase. -/
def phase_in_range (g : GlitchSynth) : Prop :=
  match g.adsr_state with
  | ADSR_ATTACK => g.current_sample_number ≤ g.attack_threshold
  | ADSR_DECAY =>
    g.attack_threshold ≤ g.current_sample_number ∧
      g.current_sample_number ≤ g.attack_threshold + g.decay_threshold
  | ADSR_RELEASE =>
    g.release_start ≤ g.current_sample_number ∧
      g.current_sample_number ≤ g.release_start + g.release_threshold
  | _ => True

instance (g : GlitchSynth) : Decidable (phase_in_range g) := by
  unfold phase_in_range
  split <;> infer_instance

/-- The two amplitudes between which the envelope interpolates in the current phase,
following the comments of the ADSR switch (attack: from `0` to `attack_amplitude`). -/
def phase_endpoints (g : GlitchSynth) : ℚ × ℚ :=
  match g.adsr_state with
  | ADSR_ATTACK => (0, g.attack_amplitude)
  | ADSR_DECAY => (g.attack_amplitude, g.decay_amplitude)
  | ADSR_SUSTAIN => (g.sustain_amplitude, g.sustain_amplitude)
  | ADSR_RELEASE => (g.sustain_amplitude, g.release_amplitude)
  | ADSR_END => (g.release_amplitude, g.release_amplitude)

/-! ## Basic facts about the loop body -/

theorem sample_step_eq (sinf : ℚ → ℚ) (hc : Int) (ad : Nat) (g : GlitchSynth) (mt : Mt19937)
    (h : 0 < g.cycle_length) :
    sample_step sinf hc ad g mt = some
      { s := (oscillator sinf g (to_int (g.current_sample_number % g.cycle_length)) hc mt).1
        amp := (adsr_envelope ad g).1
        synth := { (adsr_envelope ad g).2 with
          current_sample_number := u64_add (adsr_envelope ad g).2.current_sample_number 1 }
        mt := (oscillator sinf g (to_int (g.current_sample_number % g.cycle_length)) hc mt).2 } := by
  have h0 : g.cycle_length ≠ 0 := Nat.pos_iff_ne_zero.mp h
  simp [sample_step, h0]

theorem adsr_envelope_fields (ad : Nat) (g : GlitchSynth) :
    ∃ st rs dr, (adsr_envelope ad g).2 =
      { g with adsr_state := st, release_start := rs, do_release := dr } := by
  unfold adsr_envelope
  cases hs : g.adsr_state with
  | ADSR_ATTACK =>
    simp only
    split_ifs
    · exact ⟨_, g.release_start, g.do_release, rfl⟩
    · exact ⟨_, _, _, rfl⟩
    · exact ⟨g.adsr_state, g.release_start, g.do_release, rfl⟩
  | ADSR_DECAY =>
    simp only
    split_ifs
    · exact ⟨_, g.release_start, g.do_release, rfl⟩
    · exact ⟨_, _, _, rfl⟩
    · exact ⟨g.adsr_state, g.release_start, g.do_release, rfl⟩
  | ADSR_SUSTAIN =>
    simp only
    split_ifs
    · exact ⟨_, _, _, rfl⟩
    · exact ⟨g.adsr_state, g.release_start, g.do_release, rfl⟩
  | ADSR_RELEASE =>
    simp only
    split_ifs
    · exact ⟨_, g.release_start, g.do_release, rfl⟩
    · exact ⟨g.adsr_state, g.release_start, g.do_release, rfl⟩
  | ADSR_END => exact ⟨g.adsr_state, g.release_start, g.do_release, rfl⟩

theorem generate_one (sinf : ℚ → ℚ) (g : GlitchSynth) (mt : Mt19937) (b : List ℚ)
    (o : SampleOut) (hb : 0 < b.length) (h : voice_step sinf g mt = some o) :
    generate_samples sinf 1 b g mt =
      some (b.set 0 (b.getD 0 0 + o.contribution g), o.synth, o.mt) := by
  unfold voice_step at h
  simp [generate_samples, generate_loop, h, hb]

/-- C1 (as stated) fails: the kick voice at `current_sample_number = attack_threshold
= 500`, still in ATTACK and with a release pending, moves to DECAY on the next sample,
not to RELEASE, and `release_start` keeps its old value `0`. -/
theorem C1_counterexample :
    (generate_samples sinf_zero 1 [0] kick_attack_end mt_zero).map
        (fun r => (r.2.1.adsr_state, r.2.1.release_start, r.2.1.do_release))
      = some (ADSR_DECAY, 0, true) := by
  decide

/-- C1 (amended): a voice in ADSR_ATTACK at sample `k` with the release flag set and
`k + 1 ≤ attack_threshold` (the attack does not end on this sample) is, after one more
sample of `generate_samples`, in ADSR_RELEASE with `release_start = k` and the flag
cleared, whatever the decay threshold. -/
theorem C1_release_during_attack (sinf : ℚ → ℚ) (g : GlitchSynth) (mt : Mt19937) (b : List ℚ)
    (hb : 0 < b.length) (hc : 0 < g.cycle_length)
    (hs : g.adsr_state = ADSR_ATTACK) (hr : g.do_release = true)
    (hk : g.current_sample_number + 1 ≤ g.attack_threshold) :
    ∃ b1 g1 mt1, generate_samples sinf 1 b g mt = some (b1, g1, mt1) ∧
      g1.adsr_state = ADSR_RELEASE ∧ g1.release_start = g.current_sample_number ∧
      g1.do_release = false := by
  have hle : ¬ u64_add g.current_sample_number 1 > g.attack_threshold := by
    have := Nat.mod_le (g.current_sample_number + 1) U64
    unfold u64_add
    omega
  have hstep := sample_step_eq sinf (to_int (g.cycle_length / 2))
    (u64_add g.attack_threshold g.decay_threshold) g mt hc
  refine ⟨_, _, _, generate_one sinf g mt b _ hb hstep, ?_, ?_, ?_⟩ <;>
    simp [adsr_envelope, hs, hr, hle]

theorem C1_release_during_attack_witness :
    ∃ b1 g1 mt1, generate_samples sinf_zero 1 [0] kick_mid_attack mt_zero = some (b1, g1, mt1) ∧
      g1.adsr_state = ADSR_RELEASE ∧ g1.release_start = 250 ∧ g1.do_release = false :=
  C1_release_during_attack sinf_zero kick_mid_attack mt_zero [0] (by decide) (by decide)
    rfl rfl (by decide)

theorem u64_add_eq (a b : Nat) (h : a + b < U64) : u64_add a b = a + b := by
  unfold u64_add
  exact Nat.mod_eq_of_lt h

theorem u64_sub_eq (a b : Nat) (hba : b ≤ a) (ha : a < U64) : u64_sub a b = a - b := by
  unfold u64_sub U64 at *
  omega

/-- A voice in RELEASE keeps its state while `current_sample_number` stays within the
release window. -/
theorem release_run (sinf : ℚ → ℚ) (hc : Int) (ad : Nat) (i : Nat) :
    ∀ (h : GlitchSynth) (mt : Mt19937), 0 < h.cycle_length → h.adsr_state = ADSR_RELEASE →
      h.current_sample_number + i ≤ h.release_start + h.release_threshold →
      h.release_start + h.release_threshold + 1 < U64 →
      ∃ mt1, run_loop sinf hc ad i h mt =
        some ({ h with current_sample_number := h.current_sample_number + i }, mt1) := by
  induction i with
  | zero => intro h mt _ _ _ _; exact ⟨mt, rfl⟩
  | succ i ih =>
    intro h mt hcl hs hle hw
    have h1 : u64_add h.current_sample_number 1 = h.current_sample_number + 1 :=
      u64_add_eq _ _ (by omega)
    have h2 : u64_add h.release_start h.release_threshold = h.release_start + h.release_threshold :=
      u64_add_eq _ _ (by omega)
    have hno : ¬ (h.current_sample_number + 1 > h.release_start + h.release_threshold) := by omega
    have hstep := sample_step_eq sinf hc ad h mt hcl
    have henv : (adsr_envelope ad h).2 = h := by
      simp [adsr_envelope, hs, h1, h2, hno]
    rw [henv, h1] at hstep
    obtain ⟨mt1, hrun⟩ := ih { h with current_sample_number := h.current_sample_number + 1 }
      (oscillator sinf h (to_int (h.current_sample_number % h.cycle_length)) hc mt).2
      hcl hs (by simp only; omega) hw
    refine ⟨mt1, ?_⟩
    simp only [run_loop, hstep, hrun]
    simp [Nat.add_assoc, Nat.add_comm 1 i]

/-- The envelope amplitude of a sample generated in RELEASE, `i` samples after
`release_start`. -/
theorem release_amp (ad : Nat) (h : GlitchSynth) (i : Nat) (hs : h.adsr_state = ADSR_RELEASE)
    (hi : h.current_sample_number = h.release_start + i) (hw : h.release_start + i < U64) :
    (adsr_envelope ad h).1 =
      h.sustain_amplitude * (1 - (i : ℚ) / (h.release_threshold : ℚ)) +
        h.release_amplitude * ((i : ℚ) / (h.release_threshold : ℚ)) := by
  have hsub : u64_sub h.current_sample_number h.release_start = i := by
    rw [u64_sub_eq _ _ (by omega) (by omega)]; omega
  unfold adsr_envelope
  simp only [hs, hsub]
  split_ifs <;> rfl

/-- The voice after a sample that triggers the release. -/
theorem release_trigger (ad : Nat) (g : GlitchSynth) (hs : g.adsr_state ≠ ADSR_RELEASE)
    (ht : (adsr_envelope ad g).2.adsr_state = ADSR_RELEASE) :
    (adsr_envelope ad g).2 =
      { g with
        adsr_state := ADSR_RELEASE
        release_start := g.current_sample_number
        do_release := false } := by
  unfold adsr_envelope at ht ⊢
  cases hst : g.adsr_state with
  | ADSR_ATTACK => simp only [hst] at ht ⊢; split_ifs at ht ⊢ <;> simp_all
  | ADSR_DECAY => simp only [hst] at ht ⊢; split_ifs at ht ⊢ <;> simp_all
  | ADSR_SUSTAIN => simp only [hst] at ht ⊢; split_ifs at ht ⊢ <;> simp_all
  | ADSR_RELEASE => exact absurd hst hs
  | ADSR_END => simp only [hst] at ht ⊢; simp_all

/-- C2 (as stated) fails: the lead voice is released at sample `k = 250`, in mid-attack,
where the envelope has reached `a_k = 1/2`; the next sample (`j = 1`) is generated with
amplitude `0.7 * (1 - 1/10000)`, the interpolation from `sustain_amplitude`, and not
with `a_k * (1 - 1/10000) + release_amplitude * (1/10000)`. -/
theorem C2_counterexample :
    (nth_sample sinf_zero lead_mid_attack mt_zero 0).map
        (fun o => (o.amp, o.synth.adsr_state, o.synth.release_start))
      = some (1 / 2, ADSR_RELEASE, 250) ∧
    (nth_sample sinf_zero lead_mid_attack mt_zero 1).map (fun o => o.amp)
      = some (7 / 10 * (1 - 1 / 10000)) ∧
    (nth_sample sinf_zero lead_mid_attack mt_zero 1).map (fun o => o.amp)
      ≠ some (1 / 2 * (1 - 1 / 10000) + lead_mid_attack.release_amplitude * (1 / 10000)) := by
  refine ⟨?_, ?_, ?_⟩ <;>
    simp [nth_sample, run_samples, run_loop, sample_step, adsr_envelope, oscillator,
      lead_mid_attack, lead_synth, kick_synth, u64_add, u64_sub, U64] <;>
    norm_num

/-- C2 (amended): when a sample of index `k` triggers the release (the voice was in
ATTACK, DECAY or SUSTAIN and is in RELEASE after it), then for every `j` with
`1 ≤ j ≤ release_threshold` the sample of index `k + j` is generated with envelope
amplitude `sustain_amplitude * (1 - j/release_threshold) + release_amplitude *
(j/release_threshold)`: the ramp starts from the configured `sustain_amplitude`. -/
theorem C2_release_ramp (sinf : ℚ → ℚ) (g : GlitchSynth) (mt : Mt19937) (o : SampleOut) (j : Nat)
    (hc : 0 < g.cycle_length)
    (hw : g.current_sample_number + g.release_threshold + 1 < U64)
    (hs : g.adsr_state ≠ ADSR_RELEASE)
    (ho : voice_step sinf g mt = some o) (ht : o.synth.adsr_state = ADSR_RELEASE)
    (hj1 : 1 ≤ j) (hj2 : j ≤ g.release_threshold) :
    ∃ oj, nth_sample sinf g mt j = some oj ∧
      oj.amp = g.sustain_amplitude * (1 - (j : ℚ) / (g.release_threshold : ℚ)) +
        g.release_amplitude * ((j : ℚ) / (g.release_threshold : ℚ)) := by
  have hstep := sample_step_eq sinf (to_int (g.cycle_length / 2))
    (u64_add g.attack_threshold g.decay_threshold) g mt hc
  unfold voice_step at ho
  rw [hstep] at ho
  have ho1 : o = _ := (Option.some.inj ho).symm
  have ht1 : (adsr_envelope (u64_add g.attack_threshold g.decay_threshold) g).2.adsr_state
      = ADSR_RELEASE := by
    rw [ho1] at ht; exact ht
  have htr := release_trigger _ g hs ht1
  rw [htr] at hstep
  simp only [u64_add_eq g.current_sample_number 1 (by omega)] at hstep
  obtain ⟨i, rfl⟩ : ∃ i, j = i + 1 := ⟨j - 1, by omega⟩
  obtain ⟨mt1, hrun⟩ := release_run sinf (to_int (g.cycle_length / 2))
    (u64_add g.attack_threshold g.decay_threshold) i
    { g with
      adsr_state := ADSR_RELEASE
      release_start := g.current_sample_number
      do_release := false
      current_sample_number := g.current_sample_number + 1 }
    (oscillator sinf g (to_int (g.current_sample_number % g.cycle_length))
      (to_int (g.cycle_length / 2)) mt).2
    hc rfl (by simp only; omega) (by simp only; omega)
  have hlast := sample_step_eq sinf (to_int (g.cycle_length / 2))
    (u64_add g.attack_threshold g.decay_threshold)
    { g with
      adsr_state := ADSR_RELEASE
      release_start := g.current_sample_number
      do_release := false
      current_sample_number := g.current_sample_number + 1 + i } mt1 hc
  have hamp := release_amp (u64_add g.attack_threshold g.decay_threshold)
    { g with
      adsr_state := ADSR_RELEASE
      release_start := g.current_sample_number
      do_release := false
      current_sample_number := g.current_sample_number + 1 + i } (i + 1) rfl
    (by simp only; omega) (by simp only; omega)
  have hn : nth_sample sinf g mt (i + 1) =
      sample_step sinf (to_int (g.cycle_length / 2))
        (u64_add g.attack_threshold g.decay_threshold)
        { g with
          adsr_state := ADSR_RELEASE
          release_start := g.current_sample_number
          do_release := false
          current_sample_number := g.current_sample_number + 1 + i } mt1 := by
    simp only [nth_sample, run_samples, run_loop, hstep, hrun]
  rw [hlast] at hn
  exact ⟨_, hn, by simpa using hamp⟩

theorem C2_release_ramp_witness :
    ∃ oj, nth_sample sinf_zero lead_mid_attack mt_zero 1 = some oj ∧
      oj.amp = lead_mid_attack.sustain_amplitude *
          (1 - ((1 : Nat) : ℚ) / (lead_mid_attack.release_threshold : ℚ)) +
        lead_mid_attack.release_amplitude *
          (((1 : Nat) : ℚ) / (lead_mid_attack.release_threshold : ℚ)) :=
  C2_release_ramp sinf_zero lead_mid_attack mt_zero
    { s := -1
      amp := 1 / 2
      synth := { lead_mid_attack with
        adsr_state := ADSR_RELEASE
        release_start := 250
        do_release := false
        current_sample_number := 251 }
      mt := mt_zero } 1
    (by decide) (by decide) (by decide)
    (by
      simp [voice_step, sample_step, adsr_envelope, oscillator, lead_mid_attack, lead_synth,
        kick_synth, u64_add, U64, sinf_zero]
      norm_num)
    rfl (by decide) (by decide)

/-- C3 (as stated) fails: `play(261)` (the table entry for C4) sets `cycle_length` to
`183`, the truncation of `48000/261 = 183.9…`, while the nearest integer is `184`. -/
theorem C3_counterexample :
    (kick_synth.play 261).map (fun g => (g.cycle_length : Int)) = some 183 ∧
      round ((48000 : ℚ) / 261) = 184 := by
  constructor
  · have hf : ⌊(48000 : ℚ) / 261⌋ = 183 := by
      rw [Int.floor_eq_iff]; norm_num
    have hr : ¬ ((48000 : ℚ) / 261 ≤ -1 ∨ (18446744073709551616 : ℚ) ≤ 48000 / 261) := by
      norm_num
    simp [GlitchSynth.play, f32_to_u64, AUDIO_RATE, U64, hf, hr]
  · rw [round_eq, Int.floor_eq_iff]; norm_num

/-- C3 (amended): for every frequency `> 0` whose quotient `48000 / frequency` fits a
`uint64_t`, `play(frequency)` sets `cycle_length` to the integer part
`⌊48000 / frequency⌋` (truncation, not rounding to nearest). -/
theorem C3_cycle_length_truncated (f : ℚ) (g : GlitchSynth) (hf : 0 < f)
    (hfit : (AUDIO_RATE : ℚ) / f < (U64 : ℚ)) :
    ∃ g1, g.play f = some g1 ∧ g1.cycle_length = ⌊(AUDIO_RATE : ℚ) / f⌋₊ := by
  have hne : f ≠ 0 := ne_of_gt hf
  have hpos : (0 : ℚ) ≤ (AUDIO_RATE : ℚ) / f := by
    apply div_nonneg _ (le_of_lt hf)
    exact Nat.cast_nonneg _
  have hr : ¬ ((AUDIO_RATE : ℚ) / f ≤ -1 ∨ (U64 : ℚ) ≤ (AUDIO_RATE : ℚ) / f) := by
    rintro (h | h)
    · linarith
    · exact absurd hfit (not_lt.mpr h)
  have hplay : g.play f = some
      { g with
        cycle_length := Int.toNat ⌊(AUDIO_RATE : ℚ) / f⌋
        current_sample_number := 0
        release_start := 0
        adsr_state := ADSR_ATTACK
        do_release := false } := by
    simp only [GlitchSynth.play, f32_to_u64, hne, hr, if_false]
  exact ⟨_, hplay, Int.floor_toNat _⟩

theorem C3_cycle_length_truncated_witness :
    ∃ g1, kick_synth.play 100 = some g1 ∧ g1.cycle_length = ⌊(AUDIO_RATE : ℚ) / 100⌋₊ :=
  C3_cycle_length_truncated 100 kick_synth (by norm_num) (by norm_num [AUDIO_RATE, U64])

theorem play_fields (f : ℚ) (g g0 : GlitchSynth) (h : g.play f = some g0) :
    ∃ c, g0 =
      { g with
        cycle_length := c
        current_sample_number := 0
        release_start := 0
        adsr_state := ADSR_ATTACK
        do_release := false } := by
  unfold GlitchSynth.play at h
  split_ifs at h
  cases hc : f32_to_u64 ((AUDIO_RATE : ℚ) / f) with
  | none => simp [hc] at h
  | some c =>
    simp only [hc, Option.some.injEq] at h
    exact ⟨c, h.symm⟩

/-- A voice in ATTACK with no release pending keeps its state while
`current_sample_number` stays within the attack window. -/
theorem attack_run (sinf : ℚ → ℚ) (hc : Int) (ad : Nat) (i : Nat) :
    ∀ (h : GlitchSynth) (mt : Mt19937), 0 < h.cycle_length → h.adsr_state = ADSR_ATTACK →
      h.do_release = false →
      h.current_sample_number + i ≤ h.attack_threshold →
      h.attack_threshold + 1 < U64 →
      ∃ mt1, run_loop sinf hc ad i h mt =
        some ({ h with current_sample_number := h.current_sample_number + i }, mt1) := by
  induction i with
  | zero => intro h mt _ _ _ _ _; exact ⟨mt, rfl⟩
  | succ i ih =>
    intro h mt hcl hs hr hle hw
    have h1 : u64_add h.current_sample_number 1 = h.current_sample_number + 1 :=
      u64_add_eq _ _ (by omega)
    have hno : ¬ (h.current_sample_number + 1 > h.attack_threshold) := by omega
    have hstep := sample_step_eq sinf hc ad h mt hcl
    have henv : (adsr_envelope ad h).2 = h := by
      simp [adsr_envelope, hs, hr, h1, hno]
    rw [henv, h1] at hstep
    obtain ⟨mt1, hrun⟩ := ih { h with current_sample_number := h.current_sample_number + 1 }
      (oscillator sinf h (to_int (h.current_sample_number % h.cycle_length)) hc mt).2
      hcl hs hr (by simp only; omega) hw
    refine ⟨mt1, ?_⟩
    simp only [run_loop, hstep, hrun]
    simp [Nat.add_assoc, Nat.add_comm 1 i]

/-- The sample of index `k` generated by a freshly played voice while `k` lies within
the attack window is the loop body run at `current_sample_number = k`. -/
theorem attack_sample (sinf : ℚ → ℚ) (g : GlitchSynth) (mt : Mt19937) (k : Nat)
    (hcl : 0 < g.cycle_length) (hs : g.adsr_state = ADSR_ATTACK) (hr : g.do_release = false)
    (h0 : g.current_sample_number = 0) (hk : k ≤ g.attack_threshold)
    (hw : g.attack_threshold + 1 < U64) :
    ∃ mt1, nth_sample sinf g mt k =
      sample_step sinf (to_int (g.cycle_length / 2))
        (u64_add g.attack_threshold g.decay_threshold)
        { g with current_sample_number := k } mt1 := by
  obtain ⟨mt1, hrun⟩ := attack_run sinf (to_int (g.cycle_length / 2))
    (u64_add g.attack_threshold g.decay_threshold) k g mt hcl hs hr (by omega) hw
  refine ⟨mt1, ?_⟩
  simp only [nth_sample, run_samples, hrun, h0, Nat.zero_add]

/-- C4: for a voice with attack duration `D ≥ 1` and attack amplitude `A`, played and not
released: the sample of index `D - 1` is generated with envelope amplitude
`A * (D - 1) / D`, which is within one step `A / D` of `A`; the voice is still in
ADSR_ATTACK after that sample and is in ADSR_DECAY after the sample of index `D`. -/
theorem C4_attack_reaches_amplitude (sinf : ℚ → ℚ) (f : ℚ) (g g0 : GlitchSynth) (mt : Mt19937)
    (hp : g.play f = some g0) (hcl : 0 < g0.cycle_length)
    (hD : 1 ≤ g.attack_threshold) (hw : g.attack_threshold + 1 < U64) :
    ∃ o1 o2,
      nth_sample sinf g0 mt (g.attack_threshold - 1) = some o1 ∧
      o1.amp = g.attack_amplitude * ((g.attack_threshold - 1 : Nat) : ℚ) / (g.attack_threshold : ℚ) ∧
      |g.attack_amplitude - o1.amp| ≤ |g.attack_amplitude / (g.attack_threshold : ℚ)| ∧
      o1.synth.adsr_state = ADSR_ATTACK ∧
      nth_sample sinf g0 mt g.attack_threshold = some o2 ∧
      o2.synth.adsr_state = ADSR_DECAY := by
  obtain ⟨c, hg0⟩ := play_fields f g g0 hp
  have hs : g0.adsr_state = ADSR_ATTACK := by rw [hg0]
  have hr : g0.do_release = false := by rw [hg0]
  have h0 : g0.current_sample_number = 0 := by rw [hg0]
  have hat : g.attack_threshold = g0.attack_threshold := by rw [hg0]
  have haa : g.attack_amplitude = g0.attack_amplitude := by rw [hg0]
  rw [hat] at hD hw
  rw [hat, haa]
  obtain ⟨mt1, h1⟩ := attack_sample sinf g0 mt (g0.attack_threshold - 1) hcl hs hr h0
    (by omega) hw
  obtain ⟨mt2, h2⟩ := attack_sample sinf g0 mt g0.attack_threshold hcl hs hr h0
    (by omega) hw
  rw [sample_step_eq sinf _ _ { g0 with current_sample_number := g0.attack_threshold - 1 }
    mt1 hcl] at h1
  rw [sample_step_eq sinf _ _ { g0 with current_sample_number := g0.attack_threshold }
    mt2 hcl] at h2
  have e1 : u64_add (g0.attack_threshold - 1) 1 = g0.attack_threshold := by
    rw [u64_add_eq _ _ (by omega)]; omega
  have e2 : u64_add g0.attack_threshold 1 = g0.attack_threshold + 1 := u64_add_eq _ _ hw
  have hDq : (g0.attack_threshold : ℚ) ≠ 0 := by
    have : 0 < g0.attack_threshold := hD
    exact_mod_cast this.ne'
  refine ⟨_, _, h1, ?_, ?_, ?_, h2, ?_⟩
  · simp [adsr_envelope, hs, hr, e1, mul_div_assoc]
  · have hamp : g0.attack_amplitude -
        g0.attack_amplitude * (((g0.attack_threshold - 1 : Nat) : ℚ) / (g0.attack_threshold : ℚ))
        = g0.attack_amplitude / (g0.attack_threshold : ℚ) := by
      have hcast : ((g0.attack_threshold - 1 : Nat) : ℚ) = (g0.attack_threshold : ℚ) - 1 := by
        rw [Nat.cast_sub hD]; simp
      rw [hcast]; field_simp; ring
    simp only [adsr_envelope, hs]
    split_ifs <;> simp only [hamp] <;> exact le_refl _
  · simp [adsr_envelope, hs, hr, e1]
  · simp [adsr_envelope, hs, e2]

theorem C4_attack_reaches_amplitude_witness :
    ∃ o1 o2,
      nth_sample sinf_zero { kick_synth with cycle_length := 480 } mt_zero (500 - 1) = some o1 ∧
      o1.amp = 1 * ((500 - 1 : Nat) : ℚ) / ((500 : Nat) : ℚ) ∧
      |1 - o1.amp| ≤ |(1 : ℚ) / ((500 : Nat) : ℚ)| ∧
      o1.synth.adsr_state = ADSR_ATTACK ∧
      nth_sample sinf_zero { kick_synth with cycle_length := 480 } mt_zero 500 = some o2 ∧
      o2.synth.adsr_state = ADSR_DECAY :=
  C4_attack_reaches_amplitude sinf_zero 100 kick_synth { kick_synth with cycle_length := 480 }
    mt_zero
    (by
      have hfl : ⌊(48000 : ℚ) / 100⌋ = 480 := by
        rw [Int.floor_eq_iff]; norm_num
      have hr : ¬ ((48000 : ℚ) / 100 ≤ -1 ∨ (18446744073709551616 : ℚ) ≤ 48000 / 100) := by
        norm_num
      simp [GlitchSynth.play, f32_to_u64, AUDIO_RATE, U64, hfl, hr, kick_synth])
    (by decide) (by decide) (by decide)

theorem play_100 : kick_synth.play 100 = some { kick_synth with cycle_length := 480 } := by
  have hfl : ⌊(48000 : ℚ) / 100⌋ = 480 := by
    rw [Int.floor_eq_iff]; norm_num
  have hr : ¬ ((48000 : ℚ) / 100 ≤ -1 ∨ (18446744073709551616 : ℚ) ≤ 48000 / 100) := by
    norm_num
  simp [GlitchSynth.play, f32_to_u64, AUDIO_RATE, U64, hfl, hr, kick_synth]

/-- C5, the code at the failing input: the square-wave kick voice after `play(100)` has
`cycle_length = 480`, and its sample of index `240` (phase `p = 240 = L/2`, the first
phase of the second half of the cycle) has raw waveform value `+1`, not `-1`. -/
theorem C5_square_wave_at_half_cycle :
    ∃ g0 o, kick_synth.play 100 = some g0 ∧ g0.osc = OSC_SQUARE ∧ g0.cycle_length = 480 ∧
      nth_sample sinf_zero g0 mt_zero 240 = some o ∧ o.s = 1 := by
  obtain ⟨mt1, h1⟩ := attack_sample sinf_zero { kick_synth with cycle_length := 480 } mt_zero 240
    (by decide) rfl rfl rfl (by decide) (by decide)
  rw [sample_step_eq sinf_zero _ _
    { kick_synth with cycle_length := 480, current_sample_number := 240 } mt1 (by decide)] at h1
  refine ⟨_, _, play_100, rfl, rfl, h1, ?_⟩
  simp [oscillator, square_wave, to_int, kick_synth]

/-! ## The buffer of `generate_samples` -/

theorem getD_set_ne {α : Type} (b : List α) (i j : Nat) (a d : α) (h : i ≠ j) :
    (b.set i a).getD j d = b.getD j d := by
  simp [List.getD_eq_getElem?_getD, List.getElem?_set_ne h]

theorem getD_set_self {α : Type} (b : List α) (i : Nat) (a d : α) (h : i < b.length) :
    (b.set i a).getD i d = a := by
  simp [List.getD_eq_getElem?_getD, List.getElem?_set, h]

theorem sample_step_static (sinf : ℚ → ℚ) (hc : Int) (ad : Nat) (g : GlitchSynth) (mt : Mt19937)
    (o : SampleOut) (h : sample_step sinf hc ad g mt = some o) :
    0 < g.cycle_length ∧ o.synth.cycle_length = g.cycle_length ∧ o.synth.volume = g.volume ∧
      o.synth.release_amplitude = g.release_amplitude ∧ o.amp = (adsr_envelope ad g).1 ∧
      o.synth.adsr_state = (adsr_envelope ad g).2.adsr_state := by
  by_cases h0 : g.cycle_length = 0
  · simp [sample_step, h0] at h
  · have hpos : 0 < g.cycle_length := Nat.pos_of_ne_zero h0
    rw [sample_step_eq sinf hc ad g mt hpos] at h
    have ho : o = _ := (Option.some.inj h).symm
    obtain ⟨st, rs, dr, he⟩ := adsr_envelope_fields ad g
    subst ho
    refine ⟨hpos, ?_, ?_, ?_, rfl, rfl⟩ <;> simp only [he]

/-- The loop of `generate_samples` entered at index `i` with `k` iterations left: it
succeeds when the buffer has room, leaves the voice that `run_loop` computes, adds one
contribution to each of the entries `i, …, i + k - 1` and leaves the others alone. -/
theorem generate_loop_spec (sinf : ℚ → ℚ) (hc : Int) (ad : Nat) (k : Nat) :
    ∀ (i : Nat) (b : List ℚ) (g : GlitchSynth) (mt : Mt19937),
      0 < g.cycle_length → i + k ≤ b.length →
      ∃ b1 g1 mt1, generate_loop sinf hc ad i k b g mt = some (b1, g1, mt1) ∧
        run_loop sinf hc ad k g mt = some (g1, mt1) ∧
        b1.length = b.length ∧
        (∀ j, j < i ∨ i + k ≤ j → b1.getD j 0 = b.getD j 0) ∧
        (∀ j, j < k → ∃ r o, run_loop sinf hc ad j g mt = some r ∧
          sample_step sinf hc ad r.1 r.2 = some o ∧
          b1.getD (i + j) 0 = b.getD (i + j) 0 + o.s * g.volume * o.amp) := by
  induction k with
  | zero =>
    intro i b g mt _ _
    exact ⟨b, g, mt, rfl, rfl, rfl, fun _ _ => rfl, fun j hj => absurd hj (Nat.not_lt_zero j)⟩
  | succ k ih =>
    intro i b g mt hcl hlen
    have hstep := sample_step_eq sinf hc ad g mt hcl
    obtain ⟨o, ho⟩ : ∃ o, sample_step sinf hc ad g mt = some o := ⟨_, hstep⟩
    obtain ⟨_, hcl1, hvol, _, _, _⟩ := sample_step_static sinf hc ad g mt o ho
    have hi : i < b.length := by omega
    obtain ⟨b1, g1, mt1, hgen, hrun, hl, hout, hin⟩ :=
      ih (i + 1) (b.set i (b.getD i 0 + o.contribution g)) o.synth o.mt
        (by rw [hcl1]; exact hcl) (by rw [List.length_set]; omega)
    refine ⟨b1, g1, mt1, ?_, ?_, ?_, ?_, ?_⟩
    · simp only [generate_loop, ho, hi, if_true]
      exact hgen
    · simp only [run_loop, ho]
      exact hrun
    · rw [hl, List.length_set]
    · intro j hj
      rw [hout j (by omega)]
      exact getD_set_ne _ _ _ _ _ (by omega)
    · intro j hj
      cases j with
      | zero =>
        refine ⟨(g, mt), o, rfl, ho, ?_⟩
        rw [Nat.add_zero, hout i (by omega), getD_set_self _ _ _ _ hi]
        rfl
      | succ j =>
        obtain ⟨r, o1, hr, hs, hb⟩ := hin j (by omega)
        refine ⟨r, o1, ?_, hs, ?_⟩
        · simp only [run_loop, ho]
          exact hr
        · have hidx : i + (j + 1) = i + 1 + j := by omega
          rw [hidx, hb, getD_set_ne _ _ _ _ _ (by omega), hvol]

/-- C6: for every voice (with `cycle_length > 0`), every `n` and every buffer `b` with at
least `n` entries, `generate_samples(n, b)` returns a buffer `b1` of the same length with
`b1[i] = b[i] + s_i * volume * amp_i` for `i < n`, where `s_i` and `amp_i` belong to
`nth_sample`, a function of the voice and the generator alone, and `b1[i] = b[i]` for
`i ≥ n`; the voice and the generator left behind do not depend on the buffer either. -/
theorem C6_generate_samples_accumulates (sinf : ℚ → ℚ) (g : GlitchSynth) (mt : Mt19937)
    (n : Nat) (b : List ℚ) (hcl : 0 < g.cycle_length) (hn : n ≤ b.length) :
    ∃ b1 g1 mt1, generate_samples sinf n b g mt = some (b1, g1, mt1) ∧
      run_samples sinf n g mt = some (g1, mt1) ∧
      b1.length = b.length ∧
      (∀ i, i < n → ∃ o, nth_sample sinf g mt i = some o ∧
        b1.getD i 0 = b.getD i 0 + o.s * g.volume * o.amp) ∧
      (∀ i, n ≤ i → b1.getD i 0 = b.getD i 0) := by
  obtain ⟨b1, g1, mt1, hgen, hrun, hl, hout, hin⟩ :=
    generate_loop_spec sinf (to_int (g.cycle_length / 2))
      (u64_add g.attack_threshold g.decay_threshold) n 0 b g mt hcl (by omega)
  refine ⟨b1, g1, mt1, hgen, hrun, hl, ?_, ?_⟩
  · intro i hi
    obtain ⟨r, o, hr, hs, hb⟩ := hin i hi
    refine ⟨o, ?_, ?_⟩
    · simp only [nth_sample, run_samples, hr]
      exact hs
    · simpa using hb
  · intro i hi
    exact hout i (Or.inr (by omega))

theorem C6_generate_samples_accumulates_witness :
    ∃ b1 g1 mt1, generate_samples sinf_zero 2 [5, 7, 9] kick_mid_attack mt_zero
        = some (b1, g1, mt1) ∧
      run_samples sinf_zero 2 kick_mid_attack mt_zero = some (g1, mt1) ∧
      b1.length = [(5 : ℚ), 7, 9].length ∧
      (∀ i, i < 2 → ∃ o, nth_sample sinf_zero kick_mid_attack mt_zero i = some o ∧
        b1.getD i 0 = [(5 : ℚ), 7, 9].getD i 0 + o.s * kick_mid_attack.volume * o.amp) ∧
      (∀ i, 2 ≤ i → b1.getD i 0 = [(5 : ℚ), 7, 9].getD i 0) :=
  C6_generate_samples_accumulates sinf_zero kick_mid_attack mt_zero 2 [5, 7, 9]
    (by decide) (by decide)

/-! ## The envelope state machine -/

theorem adsr_envelope_forward (ad : Nat) (g : GlitchSynth) :
    adsr_forward g.adsr_state (adsr_envelope ad g).2.adsr_state = true := by
  unfold adsr_envelope
  cases hs : g.adsr_state with
  | ADSR_ATTACK => simp only; split_ifs <;> simp [hs, adsr_forward]
  | ADSR_DECAY => simp only; split_ifs <;> simp [hs, adsr_forward]
  | ADSR_SUSTAIN => simp only; split_ifs <;> simp [hs, adsr_forward]
  | ADSR_RELEASE => simp only; split_ifs <;> simp [hs, adsr_forward]
  | ADSR_END => simp [hs, adsr_forward]

theorem adsr_envelope_end (ad : Nat) (g : GlitchSynth) (hs : g.adsr_state = ADSR_END) :
    adsr_envelope ad g = (g.release_amplitude, g) := by
  simp [adsr_envelope, hs]

/-- A voice in END stays in END, with its configuration, for any number of samples. -/
theorem end_run (sinf : ℚ → ℚ) (hc : Int) (ad : Nat) (n : Nat) :
    ∀ (h : GlitchSynth) (mt : Mt19937), 0 < h.cycle_length → h.adsr_state = ADSR_END →
      ∃ h1 mt1, run_loop sinf hc ad n h mt = some (h1, mt1) ∧ h1.adsr_state = ADSR_END ∧
        h1.cycle_length = h.cycle_length ∧ h1.release_amplitude = h.release_amplitude := by
  induction n with
  | zero => intro h mt _ hs; exact ⟨h, mt, rfl, hs, rfl, rfl⟩
  | succ n ih =>
    intro h mt hcl hs
    obtain ⟨o, ho⟩ : ∃ o, sample_step sinf hc ad h mt = some o :=
      ⟨_, sample_step_eq sinf hc ad h mt hcl⟩
    obtain ⟨_, hcl1, _, hra, _, hst⟩ := sample_step_static sinf hc ad h mt o ho
    rw [adsr_envelope_end ad h hs] at hst
    obtain ⟨h1, mt1, hrun, hs1, hc1, hr1⟩ := ih o.synth o.mt (by rw [hcl1]; exact hcl)
      (by rw [hst]; exact hs)
    refine ⟨h1, mt1, ?_, hs1, by rw [hc1, hcl1], by rw [hr1, hra]⟩
    simp only [run_loop, ho]
    exact hrun

/-- C7: for every voice (with `cycle_length > 0`), generating one sample keeps
`adsr_state` or makes one of the moves ATTACK→DECAY, ATTACK→RELEASE, DECAY→SUSTAIN,
DECAY→RELEASE, SUSTAIN→RELEASE, RELEASE→END; and a voice in ADSR_END generates every
further sample in ADSR_END, stays there, and uses the envelope amplitude
`release_amplitude` for it. -/
theorem C7_adsr_moves_forward (sinf : ℚ → ℚ) (g : GlitchSynth) (mt : Mt19937)
    (hcl : 0 < g.cycle_length) :
    (∃ o, voice_step sinf g mt = some o ∧
      adsr_forward g.adsr_state o.synth.adsr_state = true) ∧
    (g.adsr_state = ADSR_END → ∀ n, ∃ r o, run_samples sinf n g mt = some r ∧
      r.1.adsr_state = ADSR_END ∧ nth_sample sinf g mt n = some o ∧
      o.synth.adsr_state = ADSR_END ∧ o.amp = g.release_amplitude) := by
  constructor
  · obtain ⟨o, ho⟩ : ∃ o, voice_step sinf g mt = some o :=
      ⟨_, sample_step_eq sinf _ _ g mt hcl⟩
    obtain ⟨_, _, _, _, _, hst⟩ := sample_step_static sinf _ _ g mt o ho
    exact ⟨o, ho, by rw [hst]; exact adsr_envelope_forward _ g⟩
  · intro hs n
    obtain ⟨h1, mt1, hrun, hs1, hc1, hr1⟩ := end_run sinf (to_int (g.cycle_length / 2))
      (u64_add g.attack_threshold g.decay_threshold) n g mt hcl hs
    obtain ⟨o, ho⟩ : ∃ o, sample_step sinf (to_int (g.cycle_length / 2))
        (u64_add g.attack_threshold g.decay_threshold) h1 mt1 = some o :=
      ⟨_, sample_step_eq sinf _ _ h1 mt1 (by rw [hc1]; exact hcl)⟩
    obtain ⟨_, _, _, _, hamp, hst⟩ := sample_step_static sinf _ _ h1 mt1 o ho
    rw [adsr_envelope_end _ h1 hs1] at hamp hst
    refine ⟨(h1, mt1), o, hrun, hs1, ?_, by rw [hst]; exact hs1, by rw [hamp]; exact hr1⟩
    simp only [nth_sample, run_samples, hrun]
    exact ho

theorem C7_adsr_moves_forward_witness :
    (∃ o, voice_step sinf_zero kick_ended mt_zero = some o ∧
      adsr_forward kick_ended.adsr_state o.synth.adsr_state = true) ∧
    (kick_ended.adsr_state = ADSR_END → ∀ n, ∃ r o,
      run_samples sinf_zero n kick_ended mt_zero = some r ∧
      r.1.adsr_state = ADSR_END ∧ nth_sample sinf_zero kick_ended mt_zero n = some o ∧
      o.synth.adsr_state = ADSR_END ∧ o.amp = kick_ended.release_amplitude) :=
  C7_adsr_moves_forward sinf_zero kick_ended mt_zero (by decide)

/-! ## Writes to the output block -/

theorem set_l_set_r (s : Nat) (v : ℚ) (b : List LR) :
    set_r s v (set_l s v b) = b.set s ⟨v, v⟩ := by
  unfold set_r set_l
  by_cases h : s < b.length
  · rw [getD_set_self _ _ _ _ h, List.set_set]
  · rw [List.set_eq_of_length_le (not_lt.mp h), List.set_eq_of_length_le (not_lt.mp h),
      List.set_eq_of_length_le (not_lt.mp h)]

theorem silence_fold (n : Nat) (b : List LR) :
    ((List.range n).foldl (fun b s => b.set s (⟨0, 0⟩ : LR)) b).length = b.length ∧
    ∀ j, ((List.range n).foldl (fun b s => b.set s (⟨0, 0⟩ : LR)) b)[j]? =
      if j < n ∧ j < b.length then some ⟨0, 0⟩ else b[j]? := by
  induction n with
  | zero => simp
  | succ n ih =>
    obtain ⟨hl, hj⟩ := ih
    rw [List.range_succ, List.foldl_append]
    simp only [List.foldl_cons, List.foldl_nil]
    refine ⟨by rw [List.length_set, hl], fun j => ?_⟩
    rw [List.getElem?_set, hl, hj j]
    by_cases hjn : n = j
    · subst hjn
      by_cases hb : n < b.length
      · simp [hb]
      · simp [hb, List.getElem?_eq_none (not_lt.mp hb)]
    · simp only [hjn, if_false]
      by_cases hlt : j < n
      · have : j < n + 1 := by omega
        simp [hlt, this]
      · have : ¬ j < n + 1 := by omega
        simp [hlt, this]

theorem silence_eq (b : List LR) (h : b.length = MIX_SAMPLES) :
    silence b = List.replicate MIX_SAMPLES ⟨0, 0⟩ := by
  have hs : silence b = (List.range MIX_SAMPLES).foldl (fun b s => b.set s (⟨0, 0⟩ : LR)) b := by
    simp only [silence, set_l_set_r]
  apply List.ext_getElem?
  intro j
  rw [hs, (silence_fold MIX_SAMPLES b).2 j, List.getElem?_replicate, h]
  by_cases hj : j < MIX_SAMPLES
  · simp [hj]
  · simp [hj, List.getElem?_eq_none (by omega : b.length ≤ j)]

theorem run_synths_all_off (sinf : ℚ → ℚ) (gs : List GlitchSynth) :
    ∀ (mix_buffer : List ℚ) (mt : Mt19937) (c : Nat), (∀ g ∈ gs, g.is_on = false) →
      run_synths sinf gs mix_buffer mt c = some (gs, mix_buffer, mt, c) := by
  induction gs with
  | nil => intro _ _ _ _; rfl
  | cons g gs ih =>
    intro mb mt c h
    have hg : g.is_on = false := h g (List.mem_cons_self _ _)
    have hrest := ih mb mt c (fun g1 hg1 => h g1 (List.mem_cons_of_mem _ hg1))
    simp [run_synths, hg, hrest]

/-- C9: when no voice has `is_on` set, `mix_audio` returns a block of `MIX_SAMPLES` frames
that all have `l = 0` and `r = 0` (and leaves the state as it was). -/
theorem C9_no_voice_is_silence (sinf : ℚ → ℚ) (buffer : List LR) (st : AudioState)
    (hlen : buffer.length = MIX_SAMPLES) (hoff : ∀ g ∈ st.synths, g.is_on = false) :
    mix_audio sinf buffer st = some (List.replicate MIX_SAMPLES ⟨0, 0⟩, st) ∧
      (List.replicate MIX_SAMPLES (⟨0, 0⟩ : LR)).length = 1024 := by
  have hne : ¬ buffer.length ≠ MIX_SAMPLES := by simp [hlen]
  refine ⟨?_, List.length_replicate _ _⟩
  simp only [mix_audio, hne, if_false,
    run_synths_all_off sinf st.synths _ _ 0 hoff, if_true, silence_eq buffer hlen]

theorem C9_no_voice_is_silence_witness :
    mix_audio sinf_zero (List.replicate MIX_SAMPLES ⟨3, 4⟩) (audio_state [kick_off, kick_off])
        = some (List.replicate MIX_SAMPLES ⟨0, 0⟩, audio_state [kick_off, kick_off]) ∧
      (List.replicate MIX_SAMPLES (⟨0, 0⟩ : LR)).length = 1024 :=
  C9_no_voice_is_silence sinf_zero (List.replicate MIX_SAMPLES ⟨3, 4⟩)
    (audio_state [kick_off, kick_off]) (List.length_replicate _ _)
    (by
      intro g hg
      simp only [audio_state, List.mem_cons, List.mem_singleton, List.not_mem_nil,
        or_false, or_self] at hg
      rw [hg]; rfl)

/-! ## Stopping a playing sample -/

theorem std_min_eq (a b : ℚ) : std_min a b = min a b := by
  unfold std_min
  split_ifs with h
  · exact (min_eq_right (le_of_lt h)).symm
  · exact (min_eq_left (not_lt.mp h)).symm

/-- C10: on a sample that is stopping or stopped, `stop(r)` sets `volume.ramp` to
`min(old volume.ramp, r)`, which is at most the old ramp, and leaves `volume.value`,
`volume.target` and the flags as they were; on a sample that is neither, `stop(r)` sets
`stopping`, sets `volume.target` to `0` and `volume.ramp` to `r`. -/
theorem C10_stop_shortens_ramp (p : PlayingSample) (r : ℚ) :
    ((p.stopping = true ∨ p.stopped = true) →
      (p.stop r).volume.ramp = min p.volume.ramp r ∧
      (p.stop r).volume.ramp ≤ p.volume.ramp ∧
      (p.stop r).volume.value = p.volume.value ∧
      (p.stop r).volume.target = p.volume.target ∧
      (p.stop r).stopping = p.stopping ∧ (p.stop r).stopped = p.stopped) ∧
    ((p.stopping = false ∧ p.stopped = false) →
      (p.stop r).stopping = true ∧ (p.stop r).volume.target = 0 ∧
      (p.stop r).volume.ramp = r ∧ (p.stop r).volume.value = p.volume.value) := by
  constructor
  · intro h
    have hc : (!(p.stopping || p.stopped)) = false := by
      rcases h with h | h <;> simp [h]
    simp only [PlayingSample.stop, hc, std_min_eq]
    exact ⟨rfl, min_le_left _ _, rfl, rfl, rfl, rfl⟩
  · rintro ⟨h1, h2⟩
    simp [PlayingSample.stop, h1, h2]

theorem C10_stop_shortens_ramp_witness :
    (fading_sample.stop (1 / 4)).volume.ramp = min fading_sample.volume.ramp (1 / 4) ∧
      (fading_sample.stop (1 / 4)).volume.ramp ≤ fading_sample.volume.ramp ∧
      (fading_sample.stop (1 / 4)).volume.value = fading_sample.volume.value ∧
      (fading_sample.stop (1 / 4)).volume.target = fading_sample.volume.target ∧
      (fading_sample.stop (1 / 4)).stopping = fading_sample.stopping ∧
      (fading_sample.stop (1 / 4)).stopped = fading_sample.stopped :=
  (C10_stop_shortens_ramp fading_sample (1 / 4)).1 (Or.inl rfl)

/-! ## The edge frames of `mix_audio` -/

theorem filter_step_buffer (mix_buffer : List ℚ) (on_counter : Nat) (st : FilterState) (s : Nat) :
    ∃ m, (filter_step mix_buffer on_counter st s).buffer = st.buffer.set s ⟨m, m⟩ := by
  unfold filter_step
  simp only [set_l_set_r]
  split_ifs <;> exact ⟨_, rfl⟩

/-- The filter loop writes only the frames whose index it visits. -/
theorem filter_fold_frame (mix_buffer : List ℚ) (on_counter : Nat) (l : List Nat) :
    ∀ st : FilterState,
      (l.foldl (filter_step mix_buffer on_counter) st).buffer.length = st.buffer.length ∧
      ∀ j, j ∉ l → (l.foldl (filter_step mix_buffer on_counter) st).buffer[j]? = st.buffer[j]? := by
  induction l with
  | nil => intro st; exact ⟨rfl, fun _ _ => rfl⟩
  | cons s l ih =>
    intro st
    obtain ⟨m, hm⟩ := filter_step_buffer mix_buffer on_counter st s
    obtain ⟨hl, hj⟩ := ih (filter_step mix_buffer on_counter st s)
    simp only [List.foldl_cons]
    refine ⟨by rw [hl, hm, List.length_set], fun j hjl => ?_⟩
    have hne : s ≠ j := fun h => hjl (by rw [h]; exact List.mem_cons_self _ _)
    rw [hj j (fun h => hjl (List.mem_cons_of_mem _ h)), hm, List.getElem?_set_ne hne]

theorem getElem_opt_set_l_ne (i j : Nat) (v : ℚ) (b : List LR) (h : i ≠ j) :
    (set_l i v b)[j]? = b[j]? := by
  unfold set_l
  rw [List.getElem?_set_ne h]

theorem getElem_opt_set_r_ne (i j : Nat) (v : ℚ) (b : List LR) (h : i ≠ j) :
    (set_r i v b)[j]? = b[j]? := by
  unfold set_r
  rw [List.getElem?_set_ne h]

theorem getElem_opt_set_l_self (i : Nat) (v : ℚ) (b : List LR) :
    (set_l i v b)[i]? = b[i]?.map (fun x => ({ x with l := v } : LR)) := by
  unfold set_l
  rw [List.getElem?_set]
  by_cases hl : i < b.length
  · simp [hl, List.getD_eq_getElem?_getD, List.getElem?_eq_getElem hl]
  · simp [hl, List.getElem?_eq_none (not_lt.mp hl)]

theorem getElem_opt_set_r_self (i : Nat) (v : ℚ) (b : List LR) :
    (set_r i v b)[i]? = b[i]?.map (fun x => ({ x with r := v } : LR)) := by
  unfold set_r
  rw [List.getElem?_set]
  by_cases hl : i < b.length
  · simp [hl, List.getD_eq_getElem?_getD, List.getElem?_eq_getElem hl]
  · simp [hl, List.getElem?_eq_none (not_lt.mp hl)]

theorem length_set_l (i : Nat) (v : ℚ) (b : List LR) : (set_l i v b).length = b.length := by
  simp [set_l]

theorem length_set_r (i : Nat) (v : ℚ) (b : List LR) : (set_r i v b).length = b.length := by
  simp [set_r]

theorem write_edges_length (mix_buffer : List ℚ) (on_counter : Nat) (b : List LR) :
    (write_edges mix_buffer on_counter b).length = b.length := by
  simp [write_edges, length_set_l, length_set_r]

/-- After the ten edge assignments each edge frame holds the divided sum in both
channels. -/
theorem write_edges_frame (mix_buffer : List ℚ) (on_counter : Nat) (b : List LR) (i : Nat)
    (hlen : b.length = MIX_SAMPLES)
    (hi : i = 0 ∨ i = 1 ∨ i = MIX_SAMPLES - 3 ∨ i = MIX_SAMPLES - 2 ∨ i = MIX_SAMPLES - 1) :
    (write_edges mix_buffer on_counter b)[i]? =
      some ⟨mix_buffer.getD i 0 / (on_counter : ℚ), mix_buffer.getD i 0 / (on_counter : ℚ)⟩ := by
  have hb : ∀ j, j < 1024 → b[j]? = some (b.getD j ⟨0, 0⟩) := by
    intro j hj
    have : j < b.length := by rw [hlen]; exact hj
    simp [List.getD_eq_getElem?_getD, List.getElem?_eq_getElem this]
  have h0 := hb 0 (by norm_num)
  have h1 := hb 1 (by norm_num)
  have h2 := hb 1021 (by norm_num)
  have h3 := hb 1022 (by norm_num)
  have h4 := hb 1023 (by norm_num)
  rcases hi with h | h | h | h | h <;> subst h <;>
    simp only [write_edges, MIX_SAMPLES, Nat.reduceSub] <;>
    simp (disch := decide) only [getElem_opt_set_l_self, getElem_opt_set_r_self, getElem_opt_set_l_ne,
      getElem_opt_set_r_ne, h0, h1, h2, h3, h4, Option.map_some']

theorem getD_replicate_zero (n i : Nat) : (List.replicate n (0 : ℚ)).getD i 0 = 0 := by
  rw [List.getD_eq_getElem?_getD, List.getElem?_replicate]
  split_ifs <;> rfl

/-- The loop over the voices: it succeeds when every active voice has a positive cycle
length, counts the active voices, and, at an index where every active voice contributes
exactly `1`, raises the accumulated sum by the number of active voices. -/
theorem run_synths_spec (sinf : ℚ → ℚ) (gs : List GlitchSynth) :
    ∀ (mb : List ℚ) (mt : Mt19937) (c : Nat),
      (∀ g ∈ gs, g.is_on = true → 0 < g.cycle_length) → MIX_SAMPLES ≤ mb.length →
      ∃ gs1 mb1 mt1,
        run_synths sinf gs mb mt c = some (gs1, mb1, mt1, c + gs.countP (fun g => g.is_on)) ∧
        mb1.length = mb.length ∧
        ∀ i, i < MIX_SAMPLES →
          (∀ g ∈ gs, g.is_on = true → ∀ mt0, ∃ o, nth_sample sinf g mt0 i = some o ∧
            o.s * g.volume * o.amp = 1) →
          mb1.getD i 0 = mb.getD i 0 + (gs.countP (fun g => g.is_on) : ℚ) := by
  induction gs with
  | nil =>
    intro mb mt c _ _
    exact ⟨[], mb, mt, rfl, rfl, fun i _ _ => by simp⟩
  | cons g gs ih =>
    intro mb mt c hcl hlen
    have hcl1 : ∀ g1 ∈ gs, g1.is_on = true → 0 < g1.cycle_length :=
      fun g1 h1 => hcl g1 (List.mem_cons_of_mem _ h1)
    by_cases hon : g.is_on = true
    · obtain ⟨b1, g1, mt1, hgen, hrun, hl, hout, hin⟩ :=
        generate_loop_spec sinf (to_int (g.cycle_length / 2))
          (u64_add g.attack_threshold g.decay_threshold) MIX_SAMPLES 0 mb g mt
          (hcl g (List.mem_cons_self _ _) hon) (by omega)
      have hgen1 : generate_samples sinf MIX_SAMPLES mb g mt = some (b1, g1, mt1) := hgen
      obtain ⟨gs1, mb1, mt2, hrs, hl1, hsum⟩ := ih b1 mt1 (c + 1) hcl1 (by rw [hl]; exact hlen)
      refine ⟨g1 :: gs1, mb1, mt2, ?_, by rw [hl1, hl], ?_⟩
      · simp only [run_synths, hon, if_true, hgen1, hrs, List.countP_cons]
        have : c + 1 + List.countP (fun g => g.is_on) gs
            = c + (List.countP (fun g => g.is_on) gs + 1) := by omega
        rw [this]
      · intro i hi hone
        rw [hsum i hi (fun g2 h2 => hone g2 (List.mem_cons_of_mem _ h2))]
        obtain ⟨r, o, hr, hs, hb⟩ := hin i hi
        obtain ⟨o1, ho1, hone1⟩ := hone g (List.mem_cons_self _ _) hon mt
        have hoo : o1 = o := by
          simp only [nth_sample, run_samples, hr, hs] at ho1
          exact (Option.some.inj ho1).symm
        rw [Nat.zero_add] at hb
        rw [hb, ← hoo, hone1]
        simp only [List.countP_cons, hon, if_true]
        push_cast
        ring
    · have hoff : g.is_on = false := by simpa using hon
      obtain ⟨gs1, mb1, mt2, hrs, hl1, hsum⟩ := ih mb mt c hcl1 hlen
      refine ⟨g :: gs1, mb1, mt2, ?_, hl1, ?_⟩
      · simp [run_synths, hoff, hrs, List.countP_cons]
      · intro i hi hone
        rw [hsum i hi (fun g2 h2 => hone g2 (List.mem_cons_of_mem _ h2))]
        simp [List.countP_cons, hoff]

/-- C8: in a `mix_audio` call with `N ≥ 1` active voices (each with a positive cycle
length), every edge frame (index 0, 1, `MIX_SAMPLES-3`, `MIX_SAMPLES-2`, `MIX_SAMPLES-1`)
holds in both channels the accumulated synth sum at that index divided by `N`, without
filter or crackle gain; and when every active voice contributes exactly `1` at an index,
the divided sum there is exactly `1`, which at an edge index is the output frame. -/
theorem C8_edge_frames_divided_sum (sinf : ℚ → ℚ) (buffer : List LR) (st : AudioState) (i : Nat)
    (hlen : buffer.length = MIX_SAMPLES)
    (hcl : ∀ g ∈ st.synths, g.is_on = true → 0 < g.cycle_length)
    (hN : 1 ≤ st.synths.countP (fun g => g.is_on))
    (hi : i = 0 ∨ i = 1 ∨ i = MIX_SAMPLES - 3 ∨ i = MIX_SAMPLES - 2 ∨ i = MIX_SAMPLES - 1) :
    ∃ synths1 mix_buffer mt1 out st1,
      run_synths sinf st.synths (List.replicate MIX_SAMPLES 0) st.generate_mt 0
        = some (synths1, mix_buffer, mt1, st.synths.countP (fun g => g.is_on)) ∧
      mix_audio sinf buffer st = some (out, st1) ∧
      out.length = MIX_SAMPLES ∧
      out[i]? = some
        ⟨mix_buffer.getD i 0 / (st.synths.countP (fun g => g.is_on) : ℚ),
          mix_buffer.getD i 0 / (st.synths.countP (fun g => g.is_on) : ℚ)⟩ ∧
      (∀ j, j < MIX_SAMPLES →
        (∀ g ∈ st.synths, g.is_on = true → ∀ mt0, ∃ o, nth_sample sinf g mt0 j = some o ∧
          o.s * g.volume * o.amp = 1) →
        mix_buffer.getD j 0 / (st.synths.countP (fun g => g.is_on) : ℚ) = 1) ∧
      ((∀ g ∈ st.synths, g.is_on = true → ∀ mt0, ∃ o, nth_sample sinf g mt0 i = some o ∧
          o.s * g.volume * o.amp = 1) →
        out[i]? = some ⟨1, 1⟩) := by
  obtain ⟨gs1, mb1, mt1, hrs, hl1, hsum⟩ :=
    run_synths_spec sinf st.synths (List.replicate MIX_SAMPLES 0) st.generate_mt 0 hcl
      (by rw [List.length_replicate])
  rw [Nat.zero_add] at hrs
  have hNq : ((st.synths.countP (fun g => g.is_on) : Nat) : ℚ) ≠ 0 := by
    have : 0 < st.synths.countP (fun g => g.is_on) := hN
    exact_mod_cast this.ne'
  have hN0 : ¬ st.synths.countP (fun g => g.is_on) = 0 := by omega
  have hne : ¬ buffer.length ≠ MIX_SAMPLES := by simp [hlen]
  have hiN : i < MIX_SAMPLES := by
    unfold MIX_SAMPLES at *
    omega
  have hmem : i ∉ List.range' 2 (MIX_SAMPLES - 5) := by
    rw [List.mem_range'_1]
    unfold MIX_SAMPLES at *
    omega
  have hone : ∀ j, j < MIX_SAMPLES →
      (∀ g ∈ st.synths, g.is_on = true → ∀ mt0, ∃ o, nth_sample sinf g mt0 j = some o ∧
        o.s * g.volume * o.amp = 1) →
      mb1.getD j 0 / (st.synths.countP (fun g => g.is_on) : ℚ) = 1 := by
    intro j hj h1
    rw [hsum j hj h1, getD_replicate_zero, zero_add, div_self hNq]
  obtain ⟨hfl, hfj⟩ := filter_fold_frame mb1 (st.synths.countP (fun g => g.is_on))
    (List.range' 2 (MIX_SAMPLES - 5))
    { buffer := write_edges mb1 (st.synths.countP (fun g => g.is_on)) buffer
      running_buffer := initial_running_sum mb1 (st.synths.countP (fun g => g.is_on))
      global_sample := st.global_sample
      next_crackle := st.next_crackle
      crackle_duration := st.crackle_duration
      crackle_amount := st.crackle_amount
      mt := st.crackle_mt }
  have hout := hfj i hmem
  simp only [] at hfl hout
  rw [write_edges_frame mb1 _ buffer i hlen hi] at hout
  rw [write_edges_length, hlen] at hfl
  have hmix : mix_audio sinf buffer st = some
      ((filter_loop mb1 (st.synths.countP (fun g => g.is_on))
          { buffer := write_edges mb1 (st.synths.countP (fun g => g.is_on)) buffer
            running_buffer := initial_running_sum mb1 (st.synths.countP (fun g => g.is_on))
            global_sample := st.global_sample
            next_crackle := st.next_crackle
            crackle_duration := st.crackle_duration
            crackle_amount := st.crackle_amount
            mt := st.crackle_mt }).buffer,
        { st with
          synths := gs1
          generate_mt := mt1
          crackle_mt := (filter_loop mb1 (st.synths.countP (fun g => g.is_on))
          { buffer := write_edges mb1 (st.synths.countP (fun g => g.is_on)) buffer
            running_buffer := initial_running_sum mb1 (st.synths.countP (fun g => g.is_on))
            global_sample := st.global_sample
            next_crackle := st.next_crackle
            crackle_duration := st.crackle_duration
            crackle_amount := st.crackle_amount
            mt := st.crackle_mt }).mt
          global_sample := (filter_loop mb1 (st.synths.countP (fun g => g.is_on))
          { buffer := write_edges mb1 (st.synths.countP (fun g => g.is_on)) buffer
            running_buffer := initial_running_sum mb1 (st.synths.countP (fun g => g.is_on))
            global_sample := st.global_sample
            next_crackle := st.next_crackle
            crackle_duration := st.crackle_duration
            crackle_amount := st.crackle_amount
            mt := st.crackle_mt }).global_sample
          next_crackle := (filter_loop mb1 (st.synths.countP (fun g => g.is_on))
          { buffer := write_edges mb1 (st.synths.countP (fun g => g.is_on)) buffer
            running_buffer := initial_running_sum mb1 (st.synths.countP (fun g => g.is_on))
            global_sample := st.global_sample
            next_crackle := st.next_crackle
            crackle_duration := st.crackle_duration
            crackle_amount := st.crackle_amount
            mt := st.crackle_mt }).next_crackle
          crackle_duration := (filter_loop mb1 (st.synths.countP (fun g => g.is_on))
          { buffer := write_edges mb1 (st.synths.countP (fun g => g.is_on)) buffer
            running_buffer := initial_running_sum mb1 (st.synths.countP (fun g => g.is_on))
            global_sample := st.global_sample
            next_crackle := st.next_crackle
            crackle_duration := st.crackle_duration
            crackle_amount := st.crackle_amount
            mt := st.crackle_mt }).crackle_duration
          crackle_amount := (filter_loop mb1 (st.synths.countP (fun g => g.is_on))
          { buffer := write_edges mb1 (st.synths.countP (fun g => g.is_on)) buffer
            running_buffer := initial_running_sum mb1 (st.synths.countP (fun g => g.is_on))
            global_sample := st.global_sample
            next_crackle := st.next_crackle
            crackle_duration := st.crackle_duration
            crackle_amount := st.crackle_amount
            mt := st.crackle_mt }).crackle_amount }) := by
    simp only [mix_audio, hne, if_false, hrs, hN0]
  exact ⟨gs1, mb1, mt1, _, _, hrs, hmix, hfl, hout, hone,
    fun h1 => hout.trans (by rw [hone i hiN h1])⟩

theorem unit_voice_contributes_one (mt0 : Mt19937) :
    ∃ o, nth_sample sinf_zero unit_voice mt0 0 = some o ∧
      o.s * unit_voice.volume * o.amp = 1 := by
  have hstep := sample_step_eq sinf_zero (to_int (unit_voice.cycle_length / 2))
    (u64_add unit_voice.attack_threshold unit_voice.decay_threshold) unit_voice mt0
    (by decide)
  refine ⟨_, hstep, ?_⟩
  simp [oscillator, square_wave, adsr_envelope, unit_voice, kick_synth, to_int]

theorem C8_edge_frames_divided_sum_witness :
    ∃ out st1,
      mix_audio sinf_zero (List.replicate MIX_SAMPLES ⟨0, 0⟩)
        (audio_state [unit_voice, unit_voice]) = some (out, st1) ∧
      out.length = MIX_SAMPLES ∧ out[0]? = some ⟨1, 1⟩ := by
  have hmem : ∀ g ∈ (audio_state [unit_voice, unit_voice]).synths, g = unit_voice := by
    intro g hg
    simpa [audio_state] using hg
  obtain ⟨_, _, _, out, st1, _, hmix, hl, _, _, h1⟩ :=
    C8_edge_frames_divided_sum sinf_zero (List.replicate MIX_SAMPLES ⟨0, 0⟩)
      (audio_state [unit_voice, unit_voice]) 0 (List.length_replicate _ _)
      (fun g hg _ => by rw [hmem g hg]; decide)
      (by decide) (Or.inl rfl)
  exact ⟨out, st1, hmix, hl,
    h1 (fun g hg _ mt0 => by rw [hmem g hg]; exact unit_voice_contributes_one mt0)⟩

/-! ## Scalar ramps -/

theorem RAMP_STEP_pos : 0 < RAMP_STEP := by
  norm_num [RAMP_STEP, MIX_SAMPLES, AUDIO_RATE]

theorem step_value_ramp_of_lt (r : Ramp ℚ) (h : r.ramp < RAMP_STEP) :
    step_value_ramp r = { r with value := r.target, ramp := 0 } := by
  unfold step_value_ramp
  rw [if_pos h]

theorem step_value_ramp_of_ge (r : Ramp ℚ) (h : ¬ r.ramp < RAMP_STEP) :
    step_value_ramp r =
      { r with
        value := r.value + (RAMP_STEP / r.ramp) * (r.target - r.value)
        ramp := r.ramp - RAMP_STEP } := by
  unfold step_value_ramp
  rw [if_neg h]

/-- The ramp after `k` steps: on the way it is the linear interpolation with `T - k *
RAMP_STEP` left, and from the step that uses up `T` on it rests on the target. -/
theorem ramp_iterate (v0 g T : ℚ) (hT : 0 < T) (k : Nat) :
    (step_value_ramp^[k] (ramp_from v0 g T)).target = g ∧
    ((k : ℚ) * RAMP_STEP ≤ T →
      (step_value_ramp^[k] (ramp_from v0 g T)).value = v0 + ((k : ℚ) * RAMP_STEP / T) * (g - v0) ∧
      (step_value_ramp^[k] (ramp_from v0 g T)).ramp = T - (k : ℚ) * RAMP_STEP) ∧
    (T ≤ (k : ℚ) * RAMP_STEP →
      (step_value_ramp^[k] (ramp_from v0 g T)).value = g ∧
      (step_value_ramp^[k] (ramp_from v0 g T)).ramp = 0) := by
  have hS := RAMP_STEP_pos
  induction k with
  | zero =>
    refine ⟨rfl, fun _ => ?_, fun h => ?_⟩
    · simp [ramp_from]
    · simp at h
      exact absurd hT (not_lt.mpr h)
  | succ k ih =>
    obtain ⟨ht, hlo, hhi⟩ := ih
    rw [Function.iterate_succ_apply']
    have hcast : ((k + 1 : Nat) : ℚ) = (k : ℚ) + 1 := by push_cast; ring
    rw [hcast]
    by_cases hstep : (step_value_ramp^[k] (ramp_from v0 g T)).ramp < RAMP_STEP
    · -- the step that lands on the target
      have hval : (step_value_ramp (step_value_ramp^[k] (ramp_from v0 g T))).value = g := by
        simp [step_value_ramp, hstep, ht]
      have hramp : (step_value_ramp (step_value_ramp^[k] (ramp_from v0 g T))).ramp = 0 := by
        simp [step_value_ramp, hstep]
      have htar : (step_value_ramp (step_value_ramp^[k] (ramp_from v0 g T))).target = g := by
        simp [step_value_ramp, hstep, ht]
      refine ⟨htar, fun hle => ?_, fun _ => ⟨hval, hramp⟩⟩
      -- `(k + 1) * RAMP_STEP ≤ T` contradicts `ramp < RAMP_STEP`
      have hk : (k : ℚ) * RAMP_STEP ≤ T := by nlinarith
      obtain ⟨_, hr⟩ := hlo hk
      rw [hr] at hstep
      nlinarith
    · -- an interpolation step
      have hge : RAMP_STEP ≤ (step_value_ramp^[k] (ramp_from v0 g T)).ramp := not_lt.mp hstep
      have hk : (k : ℚ) * RAMP_STEP ≤ T := by
        by_contra hcon
        have h0 := (hhi (le_of_lt (not_le.mp hcon))).2
        rw [h0] at hge
        exact absurd hS (not_lt.mpr hge)
      obtain ⟨hv, hr⟩ := hlo hk
      have hrpos : T - (k : ℚ) * RAMP_STEP ≠ 0 := by
        rw [hr] at hge
        exact ne_of_gt (lt_of_lt_of_le hS hge)
      have hval : (step_value_ramp (step_value_ramp^[k] (ramp_from v0 g T))).value
          = v0 + (((k : ℚ) + 1) * RAMP_STEP / T) * (g - v0) := by
        rw [step_value_ramp_of_ge _ hstep]
        simp only [hv, hr, ht]
        field_simp
        ring
      have hramp : (step_value_ramp (step_value_ramp^[k] (ramp_from v0 g T))).ramp
          = T - ((k : ℚ) + 1) * RAMP_STEP := by
        rw [step_value_ramp_of_ge _ hstep]
        simp only [hr]
        ring
      have htar : (step_value_ramp (step_value_ramp^[k] (ramp_from v0 g T))).target = g := by
        simp [step_value_ramp, hstep, ht]
      refine ⟨htar, fun _ => ⟨hval, hramp⟩, fun hle => ?_⟩
      rw [hr] at hge
      have heq : ((k : ℚ) + 1) * RAMP_STEP = T := le_antisymm (by linarith) hle
      refine ⟨?_, by rw [hramp, heq]; ring⟩
      rw [hval, heq, div_self (ne_of_gt hT)]
      ring

/-- C12: starting from `{value = v0, target = g, ramp = T}` with `T > 0` and applying
`step_value_ramp` `k` times: when `k * RAMP_STEP ≥ T` the value is exactly `g`; when
`k * RAMP_STEP < T` the value is `v0 + (k * RAMP_STEP / T) * (g - v0)`, which is not `g`
unless `v0 = g`; and every step brings the value no farther from `g`. -/
theorem C12_ramp_reaches_target (v0 g T : ℚ) (k : Nat) (hT : 0 < T) :
    (T ≤ (k : ℚ) * RAMP_STEP → (step_value_ramp^[k] (ramp_from v0 g T)).value = g) ∧
    ((k : ℚ) * RAMP_STEP < T →
      (step_value_ramp^[k] (ramp_from v0 g T)).value
        = v0 + ((k : ℚ) * RAMP_STEP / T) * (g - v0) ∧
      (v0 ≠ g → (step_value_ramp^[k] (ramp_from v0 g T)).value ≠ g)) ∧
    |(step_value_ramp^[k + 1] (ramp_from v0 g T)).value - g|
      ≤ |(step_value_ramp^[k] (ramp_from v0 g T)).value - g| := by
  have hS := RAMP_STEP_pos
  obtain ⟨_, hlo, hhi⟩ := ramp_iterate v0 g T hT k
  obtain ⟨_, hlo1, hhi1⟩ := ramp_iterate v0 g T hT (k + 1)
  have hTne : T ≠ 0 := ne_of_gt hT
  refine ⟨fun h => (hhi h).1, fun h => ⟨(hlo (le_of_lt h)).1, fun hne => ?_⟩, ?_⟩
  · rw [(hlo (le_of_lt h)).1]
    intro heq
    have hfac : (1 - (k : ℚ) * RAMP_STEP / T) * (v0 - g) = 0 := by
      have : v0 + (k : ℚ) * RAMP_STEP / T * (g - v0) - g = 0 := by rw [heq]; ring
      rw [← this]; ring
    have hpos : 0 < 1 - (k : ℚ) * RAMP_STEP / T := by
      rw [sub_pos, div_lt_one hT]; exact h
    rcases mul_eq_zero.mp hfac with h1 | h1
    · exact absurd h1 (ne_of_gt hpos)
    · exact hne (sub_eq_zero.mp h1)
  · by_cases h1 : T ≤ ((k + 1 : Nat) : ℚ) * RAMP_STEP
    · rw [(hhi1 h1).1, sub_self, abs_zero]
      exact abs_nonneg _
    · have h1lt : ((k + 1 : Nat) : ℚ) * RAMP_STEP < T := not_le.mp h1
      have hcast : ((k + 1 : Nat) : ℚ) = (k : ℚ) + 1 := by push_cast; ring
      have hklt : (k : ℚ) * RAMP_STEP < T := by
        rw [hcast] at h1lt; nlinarith
      rw [(hlo1 (le_of_lt h1lt)).1, (hlo (le_of_lt hklt)).1]
      have e1 : v0 + ((k + 1 : Nat) : ℚ) * RAMP_STEP / T * (g - v0) - g
          = (1 - ((k + 1 : Nat) : ℚ) * RAMP_STEP / T) * (v0 - g) := by ring
      have e0 : v0 + (k : ℚ) * RAMP_STEP / T * (g - v0) - g
          = (1 - (k : ℚ) * RAMP_STEP / T) * (v0 - g) := by ring
      have hp1 : 0 ≤ 1 - ((k + 1 : Nat) : ℚ) * RAMP_STEP / T := by
        rw [sub_nonneg, div_le_one hT]; exact le_of_lt h1lt
      have hp0 : 0 ≤ 1 - (k : ℚ) * RAMP_STEP / T := by
        rw [sub_nonneg, div_le_one hT]; exact le_of_lt hklt
      have hle : 1 - ((k + 1 : Nat) : ℚ) * RAMP_STEP / T ≤ 1 - (k : ℚ) * RAMP_STEP / T := by
        have : (k : ℚ) * RAMP_STEP / T ≤ ((k + 1 : Nat) : ℚ) * RAMP_STEP / T := by
          apply div_le_div_of_nonneg_right _ (le_of_lt hT)
          rw [hcast]; nlinarith
        linarith
      rw [e1, e0, abs_mul, abs_mul, abs_of_nonneg hp1, abs_of_nonneg hp0]
      exact mul_le_mul_of_nonneg_right hle (abs_nonneg _)

theorem C12_ramp_reaches_target_witness :
    (step_value_ramp^[47] (ramp_from 0 5 1)).value = 5 ∧
      (step_value_ramp^[46] (ramp_from 0 5 1)).value
        = 0 + (((46 : Nat) : ℚ) * RAMP_STEP / 1) * (5 - 0) :=
  ⟨(C12_ramp_reaches_target 0 5 1 47 (by norm_num)).1
      (by norm_num [RAMP_STEP, MIX_SAMPLES, AUDIO_RATE]),
    ((C12_ramp_reaches_target 0 5 1 46 (by norm_num)).2.1
      (by norm_num [RAMP_STEP, MIX_SAMPLES, AUDIO_RATE])).1⟩

/-- C17 (as stated) fails: a sample playing at full volume, whose volume ramp satisfies
the invariant, is stopped with `stop(0)`; afterwards `volume.ramp = 0` while
`volume.value = 1` differs from `volume.target = 0`. -/
theorem C17_counterexample :
    ramp_invariant playing_sample.volume ∧
      ¬ ramp_invariant (playing_sample.stop 0).volume ∧
      (playing_sample.stop 0).volume.ramp = 0 ∧
      (playing_sample.stop 0).volume.value = 1 ∧
      (playing_sample.stop 0).volume.target = 0 := by
  refine ⟨?_, ?_, ?_, ?_, ?_⟩ <;>
    simp [ramp_invariant, playing_sample, PlayingSample.stop, ramp_at]

/-- C17 (amended): `step_value_ramp` preserves the ramp invariant (`ramp ≥ 0`, and
`ramp = 0` implies `value = target`), and so does `PlayingSample::stop(r)` on the
sample's volume ramp for every `r > 0`. -/
theorem C17_ramp_invariant_preserved (r : Ramp ℚ) (p : PlayingSample) (d : ℚ) (hd : 0 < d) :
    (ramp_invariant r → ramp_invariant (step_value_ramp r)) ∧
    (ramp_invariant p.volume → ramp_invariant (p.stop d).volume) := by
  have hS := RAMP_STEP_pos
  constructor
  · rintro ⟨h0, _⟩
    by_cases hlt : r.ramp < RAMP_STEP
    · rw [step_value_ramp_of_lt r hlt]
      exact ⟨le_refl _, fun _ => rfl⟩
    · rw [step_value_ramp_of_ge r hlt]
      have hge : RAMP_STEP ≤ r.ramp := not_lt.mp hlt
      refine ⟨by simp only; linarith, fun hz => ?_⟩
      simp only at hz ⊢
      have heq : r.ramp = RAMP_STEP := by linarith
      rw [heq, div_self (ne_of_gt hS)]
      ring
  · rintro ⟨h0, hz⟩
    unfold PlayingSample.stop
    split_ifs with hc
    · exact ⟨le_of_lt hd, fun h => absurd h (ne_of_gt hd)⟩
    · simp only [std_min_eq]
      refine ⟨le_min h0 (le_of_lt hd), fun hm => hz ?_⟩
      rcases min_choice p.volume.ramp d with h | h
      · rw [h] at hm; exact hm
      · rw [h] at hm; exact absurd hm (ne_of_gt hd)

theorem C17_ramp_invariant_preserved_witness :
    ramp_invariant (step_value_ramp (ramp_from 0 5 1)) ∧
      ramp_invariant (playing_sample.stop (1 / 60)).volume :=
  ⟨(C17_ramp_invariant_preserved (ramp_from 0 5 1) playing_sample (1 / 60) (by norm_num)).1
      (by simp [ramp_invariant, ramp_from]),
    (C17_ramp_invariant_preserved (ramp_from 0 5 1) playing_sample (1 / 60) (by norm_num)).2
      (by simp [ramp_invariant, playing_sample, ramp_at])⟩

/-! ## Equal-power panning -/

theorem pan_clamp_eq {K : Type} [LinearOrderedField K] (pan : K) :
    (if -1 < (if pan < 1 then pan else 1) then (if pan < 1 then pan else 1) else (-1 : K))
      = max (-1) (min 1 pan) := by
  by_cases h1 : pan < 1
  · rw [if_pos h1, min_eq_right (le_of_lt h1)]
    by_cases h2 : -1 < pan
    · rw [if_pos h2, max_eq_right (le_of_lt h2)]
    · rw [if_neg h2, max_eq_left (not_lt.mp h2)]
  · have h3 : (-1 : K) < 1 := by norm_num
    rw [if_neg h1, min_eq_left (not_lt.mp h1), if_pos h3, max_eq_right (le_of_lt h3)]

/-- The weights depend on `pan` through its clamped value only, whatever the functions
used for cosine and sine. -/
theorem compute_pan_weights_clamp {K : Type} [LinearOrderedField K] (cos sin : K → K) (pan : K) :
    compute_pan_weights cos sin pan
      = (cos ((1 / 2) * (31415926 / 10000000) * ((1 / 2) * (max (-1) (min 1 pan) + 1))),
         sin ((1 / 2) * (31415926 / 10000000) * ((1 / 2) * (max (-1) (min 1 pan) + 1)))) := by
  unfold compute_pan_weights
  simp only [pan_clamp_eq]

theorem clamp_idem {K : Type} [LinearOrderedField K] (pan : K) :
    max (-1) (min 1 (max (-1) (min 1 pan))) = max (-1 : K) (min 1 pan) := by
  have h3 : (-1 : K) ≤ 1 := by norm_num
  have hle : max (-1 : K) (min 1 pan) ≤ 1 := max_le h3 (min_le_left _ _)
  rw [min_eq_right hle, max_eq_right (le_max_left _ _)]

/-- C11: over the reals, with the real cosine and sine, `compute_pan_weights(pan)` equals
`compute_pan_weights(clamp(pan, -1, 1))` for every `pan`; hence a `pan < -1` gives the
weights of `-1` and a `pan > 1` the weights of `1`; and the weights satisfy
`left^2 + right^2 = 1`. -/
theorem C11_pan_weights_clamped_unit (pan : ℝ) :
    compute_pan_weights Real.cos Real.sin pan
      = compute_pan_weights Real.cos Real.sin (max (-1) (min 1 pan)) ∧
    (pan < -1 →
      compute_pan_weights Real.cos Real.sin pan = compute_pan_weights Real.cos Real.sin (-1)) ∧
    (1 < pan →
      compute_pan_weights Real.cos Real.sin pan = compute_pan_weights Real.cos Real.sin 1) ∧
    (compute_pan_weights Real.cos Real.sin pan).1 ^ 2
      + (compute_pan_weights Real.cos Real.sin pan).2 ^ 2 = 1 := by
  have hclamp : compute_pan_weights Real.cos Real.sin pan
      = compute_pan_weights Real.cos Real.sin (max (-1) (min 1 pan)) := by
    rw [compute_pan_weights_clamp, compute_pan_weights_clamp Real.cos Real.sin (max _ _),
      clamp_idem]
  refine ⟨hclamp, fun h => ?_, fun h => ?_, ?_⟩
  · have hc : max (-1 : ℝ) (min 1 pan) = -1 := by
      rw [min_eq_right (by linarith), max_eq_left (le_of_lt h)]
    rw [hclamp, hc]
  · have hc : max (-1 : ℝ) (min 1 pan) = 1 := by
      rw [min_eq_left (le_of_lt h), max_eq_right (by norm_num)]
    rw [hclamp, hc]
  · rw [compute_pan_weights_clamp]
    exact Real.cos_sq_add_sin_sq _

theorem C11_pan_weights_clamped_unit_witness :
    compute_pan_weights Real.cos Real.sin 2 = compute_pan_weights Real.cos Real.sin 1 :=
  (C11_pan_weights_clamped_unit 2).2.2.1 (by norm_num)

/-! ## The cycle length set by `play` -/

theorem run_loop_cycle_length (sinf : ℚ → ℚ) (hc : Int) (ad : Nat) (n : Nat) :
    ∀ (g g1 : GlitchSynth) (mt mt1 : Mt19937),
      run_loop sinf hc ad n g mt = some (g1, mt1) → g1.cycle_length = g.cycle_length := by
  induction n with
  | zero =>
    intro g g1 mt mt1 h
    simp only [run_loop, Option.some.injEq, Prod.mk.injEq] at h
    rw [h.1]
  | succ n ih =>
    intro g g1 mt mt1 h
    cases ho : sample_step sinf hc ad g mt with
    | none => simp [run_loop, ho] at h
    | some o =>
      simp only [run_loop, ho] at h
      rw [ih o.synth g1 o.mt mt1 h]
      exact (sample_step_static sinf hc ad g mt o ho).2.1

/-- C13 (as stated) fails: `play(50000)` leaves `cycle_length = 0` (the truncation of
`48000/50000 = 0.96`), and generating one sample with that voice takes
`current_sample_number % 0`. -/
theorem C13_counterexample :
    (kick_synth.play 50000).map (fun g => g.cycle_length) = some 0 ∧
      (kick_synth.play 50000).bind (fun g => generate_samples sinf_zero 1 [0] g mt_zero)
        = none := by
  have hfl : ⌊(48000 : ℚ) / 50000⌋ = 0 := by
    rw [Int.floor_eq_iff]; norm_num
  have hr : ¬ ((48000 : ℚ) / 50000 ≤ -1 ∨ (18446744073709551616 : ℚ) ≤ 48000 / 50000) := by
    norm_num
  have hplay : kick_synth.play 50000 = some kick_synth := by
    simp [GlitchSynth.play, f32_to_u64, AUDIO_RATE, U64, hfl, hr, kick_synth]
  rw [hplay]
  exact ⟨rfl, rfl⟩

/-- C13 (amended): for every frequency with `0 < frequency ≤ 48000` (and `48000 /
frequency` below `2^64`), `play(frequency)` leaves `cycle_length > 0`, and then
`generate_samples` produces its samples for every `n` and every buffer with at least `n`
entries, the phase computation never dividing by zero, and leaves `cycle_length` as it
was. -/
theorem C13_cycle_length_positive (sinf : ℚ → ℚ) (f : ℚ) (g : GlitchSynth) (hf : 0 < f)
    (hle : f ≤ (AUDIO_RATE : ℚ)) (hfit : (AUDIO_RATE : ℚ) / f < (U64 : ℚ)) :
    ∃ g1, g.play f = some g1 ∧ 0 < g1.cycle_length ∧
      ∀ (n : Nat) (b : List ℚ) (mt : Mt19937), n ≤ b.length →
        ∃ b1 g2 mt1, generate_samples sinf n b g1 mt = some (b1, g2, mt1) ∧
          g2.cycle_length = g1.cycle_length := by
  have hne : f ≠ 0 := ne_of_gt hf
  have hone : (1 : ℚ) ≤ (AUDIO_RATE : ℚ) / f := by
    rw [le_div_iff₀ hf]; linarith
  have hr : ¬ ((AUDIO_RATE : ℚ) / f ≤ -1 ∨ (U64 : ℚ) ≤ (AUDIO_RATE : ℚ) / f) := by
    rintro (h | h)
    · linarith
    · exact absurd hfit (not_lt.mpr h)
  have hplay : g.play f = some
      { g with
        cycle_length := Int.toNat ⌊(AUDIO_RATE : ℚ) / f⌋
        current_sample_number := 0
        release_start := 0
        adsr_state := ADSR_ATTACK
        do_release := false } := by
    simp only [GlitchSynth.play, f32_to_u64, hne, hr, if_false]
  have hfloor : (1 : Int) ≤ ⌊(AUDIO_RATE : ℚ) / f⌋ := by
    rw [Int.le_floor]; exact_mod_cast hone
  have hpos : 0 < Int.toNat ⌊(AUDIO_RATE : ℚ) / f⌋ := by omega
  refine ⟨_, hplay, hpos, fun n b mt hn => ?_⟩
  obtain ⟨b1, g2, mt1, hgen, hrun, _, _, _⟩ :=
    generate_loop_spec sinf
      (to_int (Int.toNat ⌊(AUDIO_RATE : ℚ) / f⌋ / 2))
      (u64_add g.attack_threshold g.decay_threshold) n 0 b
      { g with
        cycle_length := Int.toNat ⌊(AUDIO_RATE : ℚ) / f⌋
        current_sample_number := 0
        release_start := 0
        adsr_state := ADSR_ATTACK
        do_release := false } mt hpos (by omega)
  exact ⟨b1, g2, mt1, hgen, run_loop_cycle_length sinf _ _ n _ g2 mt mt1 hrun⟩

theorem C13_cycle_length_positive_witness :
    ∃ g1, kick_synth.play 100 = some g1 ∧ 0 < g1.cycle_length ∧
      ∀ (n : Nat) (b : List ℚ) (mt : Mt19937), n ≤ b.length →
        ∃ b1 g2 mt1, generate_samples sinf_zero n b g1 mt = some (b1, g2, mt1) ∧
          g2.cycle_length = g1.cycle_length :=
  C13_cycle_length_positive sinf_zero 100 kick_synth (by norm_num)
    (by norm_num [AUDIO_RATE]) (by norm_num [AUDIO_RATE, U64])

/-! ## Ramps across the callback -/

/-- The callback hands back the master volume, the listener and the playing samples as
it found them. -/
theorem mix_audio_keeps_ramps (sinf : ℚ → ℚ) (buffer out : List LR) (st st1 : AudioState)
    (h : mix_audio sinf buffer st = some (out, st1)) :
    st1.volume = st.volume ∧ st1.listener = st.listener ∧
      st1.playing_samples = st.playing_samples := by
  unfold mix_audio at h
  split_ifs at h
  cases hrs : run_synths sinf st.synths (List.replicate MIX_SAMPLES 0) st.generate_mt 0 with
  | none => simp [hrs] at h
  | some r =>
    obtain ⟨gs1, mb1, mt1, n⟩ := r
    simp only [hrs] at h
    split_ifs at h <;>
      · simp only [Option.some.injEq, Prod.mk.injEq] at h
        rw [← h.2]
        exact ⟨rfl, rfl, rfl⟩

/-- C14, the code at the failing input: the master volume is fading from `1` to `0`
over one second and a playing sample has just been stopped with `stop(1)`; one
`mix_audio` call returns the state with both volume ramps as they were (`value = 1`,
`target = 0`, `ramp = 1`), while one `step_value_ramp` would have left `value = ramp =
1 - 1024/48000 = 367/375`. -/
theorem C14_mix_audio_steps_no_ramp :
    ∃ out st1,
      mix_audio sinf_zero (List.replicate MIX_SAMPLES ⟨0, 0⟩) volume_fading = some (out, st1) ∧
      st1.volume.value = 1 ∧ st1.volume.target = 0 ∧ st1.volume.ramp = 1 ∧
      st1.playing_samples.map (fun p => (p.volume.value, p.volume.target, p.volume.ramp))
        = [(1, 0, 1)] ∧
      (step_value_ramp volume_fading.volume).value = 367 / 375 ∧
      (step_value_ramp volume_fading.volume).ramp = 367 / 375 := by
  have hoff : ∀ g ∈ volume_fading.synths, g.is_on = false := by
    intro g hg
    have : g = kick_off := by simpa [volume_fading, audio_state] using hg
    rw [this]; rfl
  have hlen : (List.replicate MIX_SAMPLES (⟨0, 0⟩ : LR)).length = MIX_SAMPLES :=
    List.length_replicate _ _
  have hne : ¬ (List.replicate MIX_SAMPLES (⟨0, 0⟩ : LR)).length ≠ MIX_SAMPLES := by
    simp [hlen]
  have hmix : mix_audio sinf_zero (List.replicate MIX_SAMPLES ⟨0, 0⟩) volume_fading
      = some (List.replicate MIX_SAMPLES ⟨0, 0⟩, volume_fading) := by
    simp only [mix_audio, hne, if_false,
      run_synths_all_off sinf_zero volume_fading.synths _ _ 0 hoff, if_true,
      silence_eq _ hlen]
  have hnlt : ¬ volume_fading.volume.ramp < RAMP_STEP := by
    norm_num [volume_fading, ramp_from, RAMP_STEP, MIX_SAMPLES, AUDIO_RATE]
  refine ⟨_, _, hmix, rfl, rfl, rfl, ?_, ?_, ?_⟩
  · simp [volume_fading, playing_sample, PlayingSample.stop, ramp_at]
  · rw [step_value_ramp_of_ge _ hnlt]
    norm_num [volume_fading, ramp_from, RAMP_STEP, MIX_SAMPLES, AUDIO_RATE]
  · rw [step_value_ramp_of_ge _ hnlt]
    norm_num [volume_fading, ramp_from, RAMP_STEP, MIX_SAMPLES, AUDIO_RATE]

/-! ## The running sum of the filter loop -/

/-- One iteration of the filter loop: the frame it writes and the running sum it leaves. -/
theorem filter_step_frame (mix_buffer : List ℚ) (on_counter : Nat) (st : FilterState) (s : Nat) :
    (filter_step mix_buffer on_counter st s).buffer
        = st.buffer.set s ⟨crackle_gain st * st.running_buffer / 5,
            crackle_gain st * st.running_buffer / 5⟩ ∧
      (filter_step mix_buffer on_counter st s).running_buffer
        = st.running_buffer - mix_buffer.getD (s - 2) 0 / (on_counter : ℚ)
          + mix_buffer.getD (s + 3) 0 / (on_counter : ℚ) := by
  by_cases ht : u64_add st.global_sample 1 ≥ st.next_crackle
  · by_cases hd : u64_add 2000 (trunc_u64 ((unit_draw st.mt).1 * 2000)) = 0
    · simp [filter_step, crackle_gain, set_l_set_r, ht, hd]
    · simp [filter_step, crackle_gain, set_l_set_r, ht, hd]
  · by_cases hd : st.crackle_duration = 0
    · simp [filter_step, crackle_gain, set_l_set_r, ht, hd]
    · simp [filter_step, crackle_gain, set_l_set_r, ht, hd]

theorem window_sum_shift (mix_buffer : List ℚ) (on_counter : Nat) (b : Nat) :
    window_sum mix_buffer on_counter (b + 2) - mix_buffer.getD b 0 / (on_counter : ℚ)
        + mix_buffer.getD (b + 5) 0 / (on_counter : ℚ)
      = window_sum mix_buffer on_counter (b + 3) := by
  simp only [window_sum, Nat.add_sub_cancel, List.range', List.map_cons, List.map_nil,
    List.sum_cons, List.sum_nil, show b + 3 - 2 = b + 1 by omega]
  ring

theorem initial_running_sum_eq (mix_buffer : List ℚ) (on_counter : Nat) :
    initial_running_sum mix_buffer on_counter = window_sum mix_buffer on_counter 2 := by
  simp only [initial_running_sum, window_sum, List.range, List.range.loop, List.foldl_cons,
    List.foldl_nil, List.range', List.map_cons, List.map_nil, List.sum_cons, List.sum_nil]
  ring

/-- The running sum kept by the loop is the window sum of the frame about to be
written. -/
theorem filter_fold_running (mix_buffer : List ℚ) (on_counter : Nat) (n : Nat) :
    ∀ (a : Nat) (st : FilterState),
      st.running_buffer = window_sum mix_buffer on_counter (a + 2) →
      ((List.range' (a + 2) n).foldl (filter_step mix_buffer on_counter) st).running_buffer
        = window_sum mix_buffer on_counter (a + 2 + n) := by
  induction n with
  | zero => intro a st h; exact h
  | succ n ih =>
    intro a st h
    rw [List.range'_succ, List.foldl_cons]
    have hstep := (filter_step_frame mix_buffer on_counter st (a + 2)).2
    rw [h, Nat.add_sub_cancel, show a + 2 + 3 = a + 5 by omega, window_sum_shift] at hstep
    have := ih (a + 1) (filter_step mix_buffer on_counter st (a + 2)) hstep
    rw [show a + 1 + 2 = a + 2 + 1 by omega] at this
    rw [this]
    congr 1
    omega

theorem filter_state_at_running (mix_buffer : List ℚ) (on_counter : Nat) (fs : FilterState)
    (s : Nat) (hs : 2 ≤ s)
    (h : fs.running_buffer = initial_running_sum mix_buffer on_counter) :
    (filter_state_at mix_buffer on_counter fs s).running_buffer
      = window_sum mix_buffer on_counter s := by
  have h2 := filter_fold_running mix_buffer on_counter (s - 2) 0 fs
    (by rw [h, initial_running_sum_eq])
  simp only [Nat.zero_add] at h2
  rw [filter_state_at, h2]
  congr 1
  omega

/-- The frame `s` of the block that the filter loop leaves is the one written in the
iteration `s`: the crackle gain times a fifth of the running sum of that moment. -/
theorem filter_loop_frame (mix_buffer : List ℚ) (on_counter : Nat) (fs : FilterState) (s : Nat)
    (hlen : fs.buffer.length = MIX_SAMPLES) (hs2 : 2 ≤ s) (hs : s ≤ MIX_SAMPLES - 4) :
    (filter_loop mix_buffer on_counter fs).buffer[s]? = some
      ⟨crackle_gain (filter_state_at mix_buffer on_counter fs s)
          * (filter_state_at mix_buffer on_counter fs s).running_buffer / 5,
        crackle_gain (filter_state_at mix_buffer on_counter fs s)
          * (filter_state_at mix_buffer on_counter fs s).running_buffer / 5⟩ := by
  unfold MIX_SAMPLES at hs hlen
  have hsplit : List.range' 2 (MIX_SAMPLES - 5)
      = List.range' 2 (s - 2) ++ (s :: List.range' (s + 1) (1020 - s)) := by
    rw [← List.range'_succ, show 1020 - s + 1 = 1021 - s by omega]
    have := List.range'_append_1 2 (s - 2) (1021 - s)
    rw [show 2 + (s - 2) = s by omega, show 1021 - s + (s - 2) = 1019 by omega] at this
    rw [this]
    rfl
  have hpre := (filter_fold_frame mix_buffer on_counter (List.range' 2 (s - 2)) fs).1
  have hrest := filter_fold_frame mix_buffer on_counter (List.range' (s + 1) (1020 - s))
    (filter_step mix_buffer on_counter (filter_state_at mix_buffer on_counter fs s) s)
  have hnm : s ∉ List.range' (s + 1) (1020 - s) := by
    rw [List.mem_range'_1]; omega
  rw [filter_loop, hsplit, List.foldl_append, List.foldl_cons]
  have hfr := (filter_step_frame mix_buffer on_counter
    (filter_state_at mix_buffer on_counter fs s) s).1
  have hlt : s < (filter_state_at mix_buffer on_counter fs s).buffer.length := by
    rw [filter_state_at, hpre, hlen]; omega
  have hget := hrest.2 s hnm
  rw [hfr, List.getElem?_set, if_pos rfl, if_pos hlt] at hget
  exact hget

/-- The callback with at least one active voice: its block is the one the filter loop
leaves. -/
theorem mix_audio_active (sinf : ℚ → ℚ) (buffer : List LR) (st : AudioState)
    (gs1 : List GlitchSynth) (mb1 : List ℚ) (mt1 : Mt19937) (n : Nat)
    (hlen : buffer.length = MIX_SAMPLES)
    (hrs : run_synths sinf st.synths (List.replicate MIX_SAMPLES 0) st.generate_mt 0
      = some (gs1, mb1, mt1, n))
    (hn : n ≠ 0) :
    ∃ st1, mix_audio sinf buffer st
      = some ((filter_loop mb1 n (filter_init mb1 n buffer st)).buffer, st1) := by
  have hne : ¬ buffer.length ≠ MIX_SAMPLES := by simp [hlen]
  refine ⟨{ st with
      synths := gs1
      generate_mt := mt1
      crackle_mt := (filter_loop mb1 n (filter_init mb1 n buffer st)).mt
      global_sample := (filter_loop mb1 n (filter_init mb1 n buffer st)).global_sample
      next_crackle := (filter_loop mb1 n (filter_init mb1 n buffer st)).next_crackle
      crackle_duration := (filter_loop mb1 n (filter_init mb1 n buffer st)).crackle_duration
      crackle_amount := (filter_loop mb1 n (filter_init mb1 n buffer st)).crackle_amount }, ?_⟩
  simp only [mix_audio, hne, if_false, hrs, hn, filter_init]

/-- C15: in a `mix_audio` call with `N ≥ 1` active voices, for every `s` with
`2 ≤ s ≤ MIX_SAMPLES - 4`, at the moment frame `s` is written the running sum equals
the sum over `j` in `[s-2, s+2]` of `mix_buffer[j] / N`, and the output frame `s` holds in
both channels the crackle factor of that iteration times the box filter
`avg(mix_buffer[s-2..s+2] / N)` computed from scratch. -/
theorem C15_running_sum_is_box_filter (sinf : ℚ → ℚ) (buffer : List LR) (st : AudioState)
    (s : Nat) (hlen : buffer.length = MIX_SAMPLES)
    (hcl : ∀ g ∈ st.synths, g.is_on = true → 0 < g.cycle_length)
    (hN : 1 ≤ st.synths.countP (fun g => g.is_on))
    (hs2 : 2 ≤ s) (hs : s ≤ MIX_SAMPLES - 4) :
    ∃ synths1 mix_buffer mt1 out st1,
      run_synths sinf st.synths (List.replicate MIX_SAMPLES 0) st.generate_mt 0
        = some (synths1, mix_buffer, mt1, st.synths.countP (fun g => g.is_on)) ∧
      mix_audio sinf buffer st = some (out, st1) ∧
      (filter_state_at mix_buffer (st.synths.countP (fun g => g.is_on))
          (filter_init mix_buffer (st.synths.countP (fun g => g.is_on)) buffer st) s).running_buffer
        = window_sum mix_buffer (st.synths.countP (fun g => g.is_on)) s ∧
      out[s]? = some
        ⟨crackle_gain (filter_state_at mix_buffer (st.synths.countP (fun g => g.is_on))
            (filter_init mix_buffer (st.synths.countP (fun g => g.is_on)) buffer st) s)
          * box_filter mix_buffer (st.synths.countP (fun g => g.is_on)) s,
         crackle_gain (filter_state_at mix_buffer (st.synths.countP (fun g => g.is_on))
            (filter_init mix_buffer (st.synths.countP (fun g => g.is_on)) buffer st) s)
          * box_filter mix_buffer (st.synths.countP (fun g => g.is_on)) s⟩ := by
  obtain ⟨gs1, mb1, mt1, hrs, _, _⟩ :=
    run_synths_spec sinf st.synths (List.replicate MIX_SAMPLES 0) st.generate_mt 0 hcl
      (by rw [List.length_replicate])
  rw [Nat.zero_add] at hrs
  obtain ⟨st1, hmix⟩ := mix_audio_active sinf buffer st gs1 mb1 mt1 _ hlen hrs (by omega)
  have hrun := filter_state_at_running mb1 (st.synths.countP (fun g : GlitchSynth => g.is_on))
    (filter_init mb1 (st.synths.countP (fun g : GlitchSynth => g.is_on)) buffer st) s hs2 rfl
  have hfr := filter_loop_frame mb1 (st.synths.countP (fun g : GlitchSynth => g.is_on))
    (filter_init mb1 (st.synths.countP (fun g : GlitchSynth => g.is_on)) buffer st) s
    (by simp only [filter_init]; rw [write_edges_length, hlen]) hs2 hs
  refine ⟨gs1, mb1, mt1, _, st1, hrs, hmix, hrun, ?_⟩
  rw [hfr, hrun, box_filter, mul_div_assoc]

theorem C15_running_sum_is_box_filter_witness :
    ∃ synths1 mix_buffer mt1 out st1,
      run_synths sinf_zero (audio_state [unit_voice, unit_voice]).synths
          (List.replicate MIX_SAMPLES 0) (audio_state [unit_voice, unit_voice]).generate_mt 0
        = some (synths1, mix_buffer, mt1,
            (audio_state [unit_voice, unit_voice]).synths.countP (fun g => g.is_on)) ∧
      mix_audio sinf_zero (List.replicate MIX_SAMPLES ⟨0, 0⟩)
          (audio_state [unit_voice, unit_voice]) = some (out, st1) ∧
      (filter_state_at mix_buffer
          ((audio_state [unit_voice, unit_voice]).synths.countP (fun g => g.is_on))
          (filter_init mix_buffer
            ((audio_state [unit_voice, unit_voice]).synths.countP (fun g => g.is_on))
            (List.replicate MIX_SAMPLES ⟨0, 0⟩) (audio_state [unit_voice, unit_voice]))
          500).running_buffer
        = window_sum mix_buffer
            ((audio_state [unit_voice, unit_voice]).synths.countP (fun g => g.is_on)) 500 ∧
      out[500]? = some
        ⟨crackle_gain (filter_state_at mix_buffer
            ((audio_state [unit_voice, unit_voice]).synths.countP (fun g => g.is_on))
            (filter_init mix_buffer
              ((audio_state [unit_voice, unit_voice]).synths.countP (fun g => g.is_on))
              (List.replicate MIX_SAMPLES ⟨0, 0⟩) (audio_state [unit_voice, unit_voice])) 500)
          * box_filter mix_buffer
              ((audio_state [unit_voice, unit_voice]).synths.countP (fun g => g.is_on)) 500,
         crackle_gain (filter_state_at mix_buffer
            ((audio_state [unit_voice, unit_voice]).synths.countP (fun g => g.is_on))
            (filter_init mix_buffer
              ((audio_state [unit_voice, unit_voice]).synths.countP (fun g => g.is_on))
              (List.replicate MIX_SAMPLES ⟨0, 0⟩) (audio_state [unit_voice, unit_voice])) 500)
          * box_filter mix_buffer
              ((audio_state [unit_voice, unit_voice]).synths.countP (fun g => g.is_on)) 500⟩ :=
  C15_running_sum_is_box_filter sinf_zero (List.replicate MIX_SAMPLES ⟨0, 0⟩)
    (audio_state [unit_voice, unit_voice]) 500 (List.length_replicate _ _)
    (fun g hg _ => by
      have : g = unit_voice := by simpa [audio_state] using hg
      rw [this]; decide)
    (by decide) (by decide) (by decide)

/-! ## The range of the envelope phase -/

theorem lerp_between (a b t : ℚ) (h0 : 0 ≤ t) (h1 : t ≤ 1) :
    min a b ≤ a * (1 - t) + b * t ∧ a * (1 - t) + b * t ≤ max a b := by
  rcases le_total a b with h | h
  · rw [min_eq_left h, max_eq_right h]
    constructor <;> nlinarith
  · rw [min_eq_right h, max_eq_left h]
    constructor <;> nlinarith

theorem unit_ratio (i d : Nat) (hd : 1 ≤ d) (hi : i ≤ d) :
    (0 : ℚ) ≤ (i : ℚ) / (d : ℚ) ∧ (i : ℚ) / (d : ℚ) ≤ 1 := by
  have hdq : (0 : ℚ) < (d : ℚ) := by exact_mod_cast hd
  constructor
  · exact div_nonneg (Nat.cast_nonneg _) (le_of_lt hdq)
  · rw [div_le_one hdq]; exact_mod_cast hi

/-- With the counter in range, the amplitude of the sample about to be generated lies
between the two endpoint amplitudes of the phase. -/
theorem amp_between (g : GlitchSynth) (ha : 1 ≤ g.attack_threshold)
    (hd : 1 ≤ g.decay_threshold) (hr : 1 ≤ g.release_threshold)
    (hw : g.current_sample_number < U64) (hin : phase_in_range g) :
    min (phase_endpoints g).1 (phase_endpoints g).2
        ≤ (adsr_envelope (u64_add g.attack_threshold g.decay_threshold) g).1 ∧
      (adsr_envelope (u64_add g.attack_threshold g.decay_threshold) g).1
        ≤ max (phase_endpoints g).1 (phase_endpoints g).2 := by
  unfold phase_in_range at hin
  cases hs : g.adsr_state with
  | ADSR_ATTACK =>
    simp only [hs] at hin
    obtain ⟨t0, t1⟩ := unit_ratio _ _ ha hin
    have hb := lerp_between 0 g.attack_amplitude _ t0 t1
    have hamp : (adsr_envelope (u64_add g.attack_threshold g.decay_threshold) g).1
        = 0 * (1 - (g.current_sample_number : ℚ) / (g.attack_threshold : ℚ))
          + g.attack_amplitude * ((g.current_sample_number : ℚ) / (g.attack_threshold : ℚ)) := by
      unfold adsr_envelope
      simp only [hs]
      split_ifs <;> simp
    simp only [phase_endpoints, hs]
    rw [hamp]; exact hb
  | ADSR_DECAY =>
    simp only [hs] at hin
    have hsub : u64_sub g.current_sample_number g.attack_threshold
        = g.current_sample_number - g.attack_threshold := u64_sub_eq _ _ hin.1 hw
    obtain ⟨t0, t1⟩ := unit_ratio (g.current_sample_number - g.attack_threshold)
      g.decay_threshold hd (by omega)
    have hb := lerp_between g.attack_amplitude g.decay_amplitude _ t0 t1
    have hamp : (adsr_envelope (u64_add g.attack_threshold g.decay_threshold) g).1
        = g.attack_amplitude * (1 - ((g.current_sample_number - g.attack_threshold : Nat) : ℚ)
            / (g.decay_threshold : ℚ))
          + g.decay_amplitude * (((g.current_sample_number - g.attack_threshold : Nat) : ℚ)
            / (g.decay_threshold : ℚ)) := by
      unfold adsr_envelope
      simp only [hs, hsub]
      split_ifs <;> rfl
    simp only [phase_endpoints, hs]
    rw [hamp]; exact hb
  | ADSR_SUSTAIN =>
    have hamp : (adsr_envelope (u64_add g.attack_threshold g.decay_threshold) g).1
        = g.sustain_amplitude := by
      simp [adsr_envelope, hs]
    simp only [phase_endpoints, hs]
    rw [hamp, min_self, max_self]
    exact ⟨le_refl _, le_refl _⟩
  | ADSR_RELEASE =>
    simp only [hs] at hin
    have hsub : u64_sub g.current_sample_number g.release_start
        = g.current_sample_number - g.release_start := u64_sub_eq _ _ hin.1 hw
    obtain ⟨t0, t1⟩ := unit_ratio (g.current_sample_number - g.release_start)
      g.release_threshold hr (by omega)
    have hb := lerp_between g.sustain_amplitude g.release_amplitude _ t0 t1
    have hamp : (adsr_envelope (u64_add g.attack_threshold g.decay_threshold) g).1
        = g.sustain_amplitude * (1 - ((g.current_sample_number - g.release_start : Nat) : ℚ)
            / (g.release_threshold : ℚ))
          + g.release_amplitude * (((g.current_sample_number - g.release_start : Nat) : ℚ)
            / (g.release_threshold : ℚ)) := by
      unfold adsr_envelope
      simp only [hs, hsub]
      split_ifs <;> rfl
    simp only [phase_endpoints, hs]
    rw [hamp]; exact hb
  | ADSR_END =>
    have hamp : (adsr_envelope (u64_add g.attack_threshold g.decay_threshold) g).1
        = g.release_amplitude := by
      simp [adsr_envelope, hs]
    simp only [phase_endpoints, hs]
    rw [hamp, min_self, max_self]
    exact ⟨le_refl _, le_refl _⟩

/-- One pass through the ADSR switch, followed by the increment of the counter, keeps
the counter within the window of the phase the voice is then in. -/
theorem envelope_step_range (h : GlitchSynth)
    (hd : 1 ≤ h.decay_threshold) (hr : 1 ≤ h.release_threshold)
    (hw1 : h.attack_threshold + h.decay_threshold < U64)
    (hw2 : h.current_sample_number + h.release_threshold + 1 < U64)
    (hin : phase_in_range h) :
    phase_in_range
      { (adsr_envelope (u64_add h.attack_threshold h.decay_threshold) h).2 with
        current_sample_number := h.current_sample_number + 1 } := by
  have h2 : u64_add h.attack_threshold h.decay_threshold
      = h.attack_threshold + h.decay_threshold := u64_add_eq _ _ hw1
  have h1 : u64_add h.current_sample_number 1 = h.current_sample_number + 1 :=
    u64_add_eq _ _ (by omega)
  rw [h2]
  unfold phase_in_range at hin
  cases hs : h.adsr_state with
  | ADSR_ATTACK =>
    simp only [hs] at hin
    unfold adsr_envelope
    simp only [hs, h1]
    split_ifs
    all_goals simp only [phase_in_range, hs]
    all_goals omega
  | ADSR_DECAY =>
    simp only [hs] at hin
    unfold adsr_envelope
    simp only [hs, h1]
    split_ifs
    all_goals simp only [phase_in_range, hs]
    all_goals omega
  | ADSR_SUSTAIN =>
    unfold adsr_envelope
    simp only [hs]
    split_ifs
    all_goals simp only [phase_in_range, hs]
    all_goals omega
  | ADSR_RELEASE =>
    simp only [hs] at hin
    have h3 : u64_add h.release_start h.release_threshold
        = h.release_start + h.release_threshold := u64_add_eq _ _ (by omega)
    unfold adsr_envelope
    simp only [hs, h1, h3]
    split_ifs
    all_goals simp only [phase_in_range, hs]
    all_goals omega
  | ADSR_END =>
    unfold adsr_envelope
    simp only [hs, phase_in_range]

theorem request_release_fields (r : Bool) (g : GlitchSynth) :
    ∃ dr, request_release r g = { g with do_release := dr } := by
  cases r
  · exact ⟨g.do_release, rfl⟩
  · exact ⟨true, rfl⟩

/-- One entry of the schedule: the sample is generated, the counter advances by one and
stays within the window of the phase, and the configuration is untouched. -/
theorem schedule_step (sinf : ℚ → ℚ) (g : GlitchSynth) (mt : Mt19937) (r : Bool)
    (hcl : 0 < g.cycle_length)
    (hd : 1 ≤ g.decay_threshold) (hr : 1 ≤ g.release_threshold)
    (hw1 : g.attack_threshold + g.decay_threshold < U64)
    (hw2 : g.current_sample_number + g.release_threshold + 1 < U64)
    (hin : phase_in_range g) :
    ∃ o, voice_step sinf (request_release r g) mt = some o ∧ phase_in_range o.synth ∧
      o.synth.current_sample_number = g.current_sample_number + 1 ∧
      o.synth.attack_threshold = g.attack_threshold ∧
      o.synth.decay_threshold = g.decay_threshold ∧
      o.synth.release_threshold = g.release_threshold ∧
      o.synth.cycle_length = g.cycle_length := by
  obtain ⟨dr, hreq⟩ := request_release_fields r g
  rw [hreq]
  have hin1 : phase_in_range { g with do_release := dr } := hin
  have hrange := envelope_step_range { g with do_release := dr } hd hr hw1 hw2 hin1
  have hstep := sample_step_eq sinf
    (to_int (g.cycle_length / 2)) (u64_add g.attack_threshold g.decay_threshold)
    { g with do_release := dr } mt hcl
  obtain ⟨st, rs, dr1, he⟩ := adsr_envelope_fields
    (u64_add g.attack_threshold g.decay_threshold) { g with do_release := dr }
  have h1 : u64_add g.current_sample_number 1 = g.current_sample_number + 1 :=
    u64_add_eq _ _ (by omega)
  rw [he] at hstep hrange
  simp only [h1] at hstep
  exact ⟨_, hstep, hrange, rfl, rfl, rfl, rfl, rfl⟩

/-- Every schedule of samples and release requests that fits before the counter can wrap
runs to its end and leaves the counter within the window of the phase. -/
theorem run_schedule_range (sinf : ℚ → ℚ) (sched : List Bool) :
    ∀ (g : GlitchSynth) (mt : Mt19937), 0 < g.cycle_length →
      1 ≤ g.decay_threshold → 1 ≤ g.release_threshold →
      g.attack_threshold + g.decay_threshold < U64 →
      g.current_sample_number + sched.length + g.release_threshold + 1 < U64 →
      phase_in_range g →
      ∃ g1 mt1, run_schedule sinf sched g mt = some (g1, mt1) ∧ phase_in_range g1 ∧
        g1.current_sample_number = g.current_sample_number + sched.length ∧
        g1.attack_threshold = g.attack_threshold ∧
        g1.decay_threshold = g.decay_threshold ∧
        g1.release_threshold = g.release_threshold := by
  induction sched with
  | nil =>
    intro g mt _ _ _ _ _ hin
    exact ⟨g, mt, rfl, hin, rfl, rfl, rfl, rfl⟩
  | cons r rs ih =>
    intro g mt hcl hd hr hw1 hw2 hin
    simp only [List.length_cons] at hw2
    obtain ⟨o, ho, hin1, hc, ha1, hd1, hr1, hcl1⟩ :=
      schedule_step sinf g mt r hcl hd hr hw1 (by omega) hin
    obtain ⟨g1, mt1, hrun, hin2, hc2, ha2, hd2, hr2⟩ := ih o.synth o.mt
      (by rw [hcl1]; exact hcl) (by rw [hd1]; exact hd) (by rw [hr1]; exact hr)
      (by rw [ha1, hd1]; exact hw1) (by rw [hc, hr1]; omega) hin1
    refine ⟨g1, mt1, ?_, hin2, ?_, by rw [ha2, ha1], by rw [hd2, hd1], by rw [hr2, hr1]⟩
    · simp only [run_schedule, ho]
      exact hrun
    · rw [hc2, hc, List.length_cons]; omega

/-- C16: a voice with attack, decay and release durations `≥ 1` is played and then
generates samples, release requests arriving before any of them (the schedule); as long
as the counters cannot wrap, the voice reached has, in ADSR_ATTACK,
`current_sample_number ≤ attack_threshold`; in ADSR_DECAY, `attack_threshold ≤
current_sample_number ≤ attack_threshold + decay_threshold`; in ADSR_RELEASE,
`release_start ≤ current_sample_number ≤ release_start + release_threshold`.  The two
unsigned subtractions then do not wrap, and the amplitude of the next sample lies
between the two endpoint amplitudes of the phase. -/
theorem C16_phase_parameter_in_range (sinf : ℚ → ℚ) (f : ℚ) (g g0 : GlitchSynth)
    (mt : Mt19937) (sched : List Bool)
    (hp : g.play f = some g0) (hcl : 0 < g0.cycle_length)
    (ha : 1 ≤ g.attack_threshold) (hd : 1 ≤ g.decay_threshold)
    (hr : 1 ≤ g.release_threshold)
    (hw1 : g.attack_threshold + g.decay_threshold < U64)
    (hw2 : sched.length + g.release_threshold + 1 < U64) :
    ∃ g1 mt1, run_schedule sinf sched g0 mt = some (g1, mt1) ∧
      (g1.adsr_state = ADSR_ATTACK → g1.current_sample_number ≤ g1.attack_threshold) ∧
      (g1.adsr_state = ADSR_DECAY →
        g1.attack_threshold ≤ g1.current_sample_number ∧
        g1.current_sample_number ≤ g1.attack_threshold + g1.decay_threshold ∧
        ((u64_sub g1.current_sample_number g1.attack_threshold : Nat) : Int)
          = (g1.current_sample_number : Int) - (g1.attack_threshold : Int)) ∧
      (g1.adsr_state = ADSR_RELEASE →
        g1.release_start ≤ g1.current_sample_number ∧
        g1.current_sample_number ≤ g1.release_start + g1.release_threshold ∧
        ((u64_sub g1.current_sample_number g1.release_start : Nat) : Int)
          = (g1.current_sample_number : Int) - (g1.release_start : Int)) ∧
      min (phase_endpoints g1).1 (phase_endpoints g1).2
        ≤ (adsr_envelope (u64_add g1.attack_threshold g1.decay_threshold) g1).1 ∧
      (adsr_envelope (u64_add g1.attack_threshold g1.decay_threshold) g1).1
        ≤ max (phase_endpoints g1).1 (phase_endpoints g1).2 := by
  obtain ⟨c, hg0⟩ := play_fields f g g0 hp
  have hs0 : g0.adsr_state = ADSR_ATTACK := by rw [hg0]
  have hc0 : g0.current_sample_number = 0 := by rw [hg0]
  have hat : g0.attack_threshold = g.attack_threshold := by rw [hg0]
  have hdt : g0.decay_threshold = g.decay_threshold := by rw [hg0]
  have hrt : g0.release_threshold = g.release_threshold := by rw [hg0]
  have hin0 : phase_in_range g0 := by
    simp only [phase_in_range, hs0, hc0]
    exact Nat.zero_le _
  obtain ⟨g1, mt1, hrun, hin, hc1, ha1, hd1, hr1⟩ := run_schedule_range sinf sched g0 mt hcl
    (by rw [hdt]; exact hd) (by rw [hrt]; exact hr) (by rw [hat, hdt]; exact hw1)
    (by rw [hc0, hrt]; omega) hin0
  have hlt : g1.current_sample_number < U64 := by rw [hc1, hc0]; omega
  have hamp := amp_between g1 (by rw [ha1, hat]; exact ha) (by rw [hd1, hdt]; exact hd)
    (by rw [hr1, hrt]; exact hr) hlt hin
  refine ⟨g1, mt1, hrun, fun h => ?_, fun h => ?_, fun h => ?_, hamp.1, hamp.2⟩
  · simpa only [phase_in_range, h] using hin
  · have hin1 : g1.attack_threshold ≤ g1.current_sample_number ∧
        g1.current_sample_number ≤ g1.attack_threshold + g1.decay_threshold := by
      simpa only [phase_in_range, h] using hin
    refine ⟨hin1.1, hin1.2, ?_⟩
    rw [u64_sub_eq _ _ hin1.1 hlt]
    omega
  · have hin1 : g1.release_start ≤ g1.current_sample_number ∧
        g1.current_sample_number ≤ g1.release_start + g1.release_threshold := by
      simpa only [phase_in_range, h] using hin
    refine ⟨hin1.1, hin1.2, ?_⟩
    rw [u64_sub_eq _ _ hin1.1 hlt]
    omega

theorem C16_phase_parameter_in_range_witness :
    ∃ g1 mt1,
      run_schedule sinf_zero [false, false, true, false]
        { kick_synth with cycle_length := 480 } mt_zero = some (g1, mt1) ∧
      (g1.adsr_state = ADSR_ATTACK → g1.current_sample_number ≤ g1.attack_threshold) ∧
      (g1.adsr_state = ADSR_DECAY →
        g1.attack_threshold ≤ g1.current_sample_number ∧
        g1.current_sample_number ≤ g1.attack_threshold + g1.decay_threshold ∧
        ((u64_sub g1.current_sample_number g1.attack_threshold : Nat) : Int)
          = (g1.current_sample_number : Int) - (g1.attack_threshold : Int)) ∧
      (g1.adsr_state = ADSR_RELEASE →
        g1.release_start ≤ g1.current_sample_number ∧
        g1.current_sample_number ≤ g1.release_start + g1.release_threshold ∧
        ((u64_sub g1.current_sample_number g1.release_start : Nat) : Int)
          = (g1.current_sample_number : Int) - (g1.release_start : Int)) ∧
      min (phase_endpoints g1).1 (phase_endpoints g1).2
        ≤ (adsr_envelope (u64_add g1.attack_threshold g1.decay_threshold) g1).1 ∧
      (adsr_envelope (u64_add g1.attack_threshold g1.decay_threshold) g1).1
        ≤ max (phase_endpoints g1).1 (phase_endpoints g1).2 :=
  C16_phase_parameter_in_range sinf_zero 100 kick_synth { kick_synth with cycle_length := 480 }
    mt_zero [false, false, true, false] play_100 (by decide) (by decide) (by decide)
    (by decide) (by decide) (by decide)

end Sound
